import Mathlib

/-!
Verification of the process-ingestion and field-dependency core of
`DESIGNER.py` (forms/workflow designer).

The development is a shallow embedding of the Python source:

* the BPMN archive reader `parse_bizagi_group_by_diagram` and the
  decision-field deriver `build_task_fields_for_diagram`;
* the live field-graph model (`Field`, `Task`, `ProjectModel`), its
  serialization (`to_dict` / `from_dict`), and the mutation operations of the
  `App` class (add/delete/move/retype/relink field, task management,
  visibility rules);
* the undo/redo history (`_serialize_project`, `_push_undo`, `undo_action`,
  `redo_action`, `_apply_project_dict`).

Python dictionaries are modelled by association lists in insertion order,
Python's truthiness on optional strings by an explicit predicate, and byte/zip
level failures of the archive reader by an explicit content datatype.
-/

set_option maxRecDepth 10000

namespace Designer

/-! ## Python-style string utilities -/

/-- Code-point comparison of character lists: the comparison CPython uses for
`str` values (`s1 <= s2` compares code points lexicographically). -/
def charsLe : List Char → List Char → Bool
  | [], _ => true
  | _ :: _, [] => false
  | a :: as, b :: bs => if a < b then true else if b < a then false else charsLe as bs

/-- `a <= b` on Python strings (code-point lexicographic). -/
def strLe (a b : String) : Bool := charsLe a.data b.data

theorem charsLe_cons_cons (a b : Char) (as bs : List Char) :
    charsLe (a :: as) (b :: bs) =
      if a < b then true else if b < a then false else charsLe as bs := rfl

theorem charsLe_refl : ∀ l : List Char, charsLe l l = true
  | [] => rfl
  | a :: as => by
    rw [charsLe_cons_cons, if_neg (lt_irrefl a), if_neg (lt_irrefl a)]
    exact charsLe_refl as

theorem charsLe_total : ∀ x y : List Char, (charsLe x y || charsLe y x) = true
  | [], _ => rfl
  | _ :: _, [] => rfl
  | a :: as, b :: bs => by
    rcases lt_trichotomy a b with h | h | h
    · have e : charsLe (a :: as) (b :: bs) = true := by
        rw [charsLe_cons_cons, if_pos h]
      rw [e, Bool.true_or]
    · subst h
      have e1 : charsLe (a :: as) (a :: bs) = charsLe as bs := by
        rw [charsLe_cons_cons, if_neg (lt_irrefl a), if_neg (lt_irrefl a)]
      have e2 : charsLe (a :: bs) (a :: as) = charsLe bs as := by
        rw [charsLe_cons_cons, if_neg (lt_irrefl a), if_neg (lt_irrefl a)]
      rw [e1, e2]
      exact charsLe_total as bs
    · have e : charsLe (b :: bs) (a :: as) = true := by
        rw [charsLe_cons_cons, if_pos h]
      rw [e, Bool.or_true]

theorem charsLe_trans : ∀ x y z : List Char,
    charsLe x y = true → charsLe y z = true → charsLe x z = true
  | [], _, _, _, _ => rfl
  | _ :: _, [], _, h, _ => absurd h (by rw [charsLe]; exact Bool.false_ne_true)
  | _ :: _, _ :: _, [], _, h => absurd h (by rw [charsLe]; exact Bool.false_ne_true)
  | a :: as, b :: bs, c :: cs, h1, h2 => by
    rw [charsLe_cons_cons] at h1 h2 ⊢
    rcases lt_trichotomy a b with hab | hab | hab
    · rcases lt_trichotomy b c with hbc | hbc | hbc
      · rw [if_pos (hab.trans hbc)]
      · subst hbc; rw [if_pos hab]
      · rw [if_neg (lt_asymm hbc), if_pos hbc] at h2
        exact absurd h2 Bool.false_ne_true
    · subst hab
      rw [if_neg (lt_irrefl a), if_neg (lt_irrefl a)] at h1
      rcases lt_trichotomy a c with hac | hac | hac
      · rw [if_pos hac]
      · subst hac
        rw [if_neg (lt_irrefl a), if_neg (lt_irrefl a)] at h2 ⊢
        exact charsLe_trans as bs cs h1 h2
      · rw [if_neg (lt_asymm hac), if_pos hac] at h2
        exact absurd h2 Bool.false_ne_true
    · rw [if_neg (lt_asymm hab), if_pos hab] at h1
      exact absurd h1 Bool.false_ne_true

/-- Stable insertion of `x` into a sorted list: `x` goes after every element
`y` with `le y x`, so elements comparing equal keep their original order. -/
def insertSorted (le : α → α → Bool) (x : α) : List α → List α
  | [] => [x]
  | y :: ys => if le y x then y :: insertSorted le x ys else x :: y :: ys

/-- Stable sort, processing elements left to right: models CPython's stable
`list.sort`.  (Any two stable sorts with the same total preorder agree.) -/
def pySort (le : α → α → Bool) (l : List α) : List α :=
  l.foldl (fun acc x => insertSorted le x acc) []

theorem length_insertSorted (le : α → α → Bool) (x : α) :
    ∀ l : List α, (insertSorted le x l).length = l.length + 1
  | [] => rfl
  | y :: ys => by
    by_cases h : le y x = true
    · simp [insertSorted, h, length_insertSorted le x ys]
    · simp [insertSorted, h]

theorem insertSorted_cons (le : α → α → Bool) (x y : α) (ys : List α) :
    insertSorted le x (y :: ys) =
      if le y x then y :: insertSorted le x ys else x :: y :: ys := rfl

theorem mem_insertSorted (le : α → α → Bool) (x z : α) :
    ∀ l : List α, z ∈ insertSorted le x l ↔ z = x ∨ z ∈ l
  | [] => by simp [insertSorted]
  | y :: ys => by
    rw [insertSorted_cons]
    by_cases h : le y x = true
    · rw [if_pos h]
      simp only [List.mem_cons, mem_insertSorted le x z ys]
      tauto
    · rw [if_neg h]
      simp only [List.mem_cons]

theorem pairwise_insertSorted (le : α → α → Bool)
    (htot : ∀ a b, (le a b || le b a) = true)
    (htrans : ∀ a b c, le a b = true → le b c = true → le a c = true)
    (x : α) : ∀ l : List α, l.Pairwise (fun a b => le a b = true) →
      (insertSorted le x l).Pairwise (fun a b => le a b = true)
  | [], _ => by simp [insertSorted]
  | y :: ys, h => by
    rcases List.pairwise_cons.1 h with ⟨hy, hys⟩
    by_cases hyx : le y x = true
    · simp only [insertSorted, hyx, if_true]
      refine List.pairwise_cons.2 ⟨?_, pairwise_insertSorted le htot htrans x ys hys⟩
      intro z hz
      rcases (mem_insertSorted le x z ys).1 hz with hz | hz
      · subst hz; exact hyx
      · exact hy z hz
    · have hxy : le x y = true := by
        have := htot y x
        simpa [hyx] using this
      simp only [insertSorted, hyx, if_false]
      refine List.pairwise_cons.2 ⟨?_, h⟩
      intro z hz
      rcases List.mem_cons.1 hz with hz | hz
      · subst hz; exact hxy
      · exact htrans x y z hxy (hy z hz)

theorem filter_insertSorted (le : α → α → Bool) (p : α → Bool)
    (htrans : ∀ a b c, le a b = true → le b c = true → le a c = true)
    (hties : ∀ a b, p a = true → p b = true → le a b = true)
    (x : α) : ∀ l : List α, l.Pairwise (fun a b => le a b = true) →
      (insertSorted le x l).filter p = l.filter p ++ (if p x then [x] else [])
  | [], _ => by by_cases h : p x = true <;> simp [insertSorted, h]
  | y :: ys, h => by
    rcases List.pairwise_cons.1 h with ⟨hy, hys⟩
    rw [insertSorted_cons]
    by_cases hyx : le y x = true
    · rw [if_pos hyx]
      by_cases hpy : p y = true <;>
        simp [List.filter_cons, hpy,
          filter_insertSorted le p htrans hties x ys hys]
    · rw [if_neg hyx]
      by_cases hpx : p x = true
      · have hnil : (y :: ys).filter p = [] := by
          refine List.filter_eq_nil_iff.2 ?_
          intro z hz
          rcases List.mem_cons.1 hz with hz | hz
          · subst hz
            intro hpy
            exact hyx (hties z x hpy hpx)
          · intro hpz
            exact hyx (htrans y z x (hy z hz) (hties z x hpz hpx))
        rw [List.filter_cons, if_pos (by simpa using hpx), hnil]
        simp [hpx]
      · rw [List.filter_cons, if_neg (by simpa using hpx)]
        simp [hpx]

theorem pairwise_foldl_insertSorted (le : α → α → Bool)
    (htot : ∀ a b, (le a b || le b a) = true)
    (htrans : ∀ a b c, le a b = true → le b c = true → le a c = true) :
    ∀ (l acc : List α), acc.Pairwise (fun a b => le a b = true) →
      (l.foldl (fun acc x => insertSorted le x acc) acc).Pairwise
        (fun a b => le a b = true)
  | [], _, h => h
  | x :: xs, acc, h =>
    pairwise_foldl_insertSorted le htot htrans xs _
      (pairwise_insertSorted le htot htrans x acc h)

/-- The sort is ordered: consecutive elements satisfy `le`. -/
theorem pairwise_pySort (le : α → α → Bool)
    (htot : ∀ a b, (le a b || le b a) = true)
    (htrans : ∀ a b c, le a b = true → le b c = true → le a c = true)
    (l : List α) : (pySort le l).Pairwise (fun a b => le a b = true) :=
  pairwise_foldl_insertSorted le htot htrans l [] (by simp)

theorem filter_foldl_insertSorted (le : α → α → Bool) (p : α → Bool)
    (htot : ∀ a b, (le a b || le b a) = true)
    (htrans : ∀ a b c, le a b = true → le b c = true → le a c = true)
    (hties : ∀ a b, p a = true → p b = true → le a b = true) :
    ∀ (l acc : List α), acc.Pairwise (fun a b => le a b = true) →
      (l.foldl (fun acc x => insertSorted le x acc) acc).filter p =
        acc.filter p ++ l.filter p
  | [], _, _ => by simp
  | x :: xs, acc, h => by
    rw [List.foldl_cons,
      filter_foldl_insertSorted le p htot htrans hties xs _
        (pairwise_insertSorted le htot htrans x acc h),
      filter_insertSorted le p htrans hties x acc h, List.filter_cons]
    by_cases hpx : p x = true <;> simp [hpx]

/-- Stability of the sort: elements picked out by a predicate that only selects
mutually tied elements appear in their original relative order. -/
theorem filter_pySort (le : α → α → Bool) (p : α → Bool)
    (htot : ∀ a b, (le a b || le b a) = true)
    (htrans : ∀ a b c, le a b = true → le b c = true → le a c = true)
    (hties : ∀ a b, p a = true → p b = true → le a b = true)
    (l : List α) : (pySort le l).filter p = l.filter p := by
  have := filter_foldl_insertSorted le p htot htrans hties l [] (by simp)
  simpa [pySort] using this

theorem length_foldl_insertSorted (le : α → α → Bool) :
    ∀ (l acc : List α),
      (l.foldl (fun acc x => insertSorted le x acc) acc).length =
        acc.length + l.length
  | [], _ => by simp
  | x :: xs, acc => by
    rw [List.foldl_cons, length_foldl_insertSorted le xs _,
      length_insertSorted]
    simp
    omega

theorem length_pySort (le : α → α → Bool) (l : List α) :
    (pySort le l).length = l.length := by
  have := length_foldl_insertSorted le l []
  simpa [pySort] using this

theorem mem_foldl_insertSorted (le : α → α → Bool) (z : α) :
    ∀ (l acc : List α),
      (z ∈ l.foldl (fun acc x => insertSorted le x acc) acc) ↔
        z ∈ acc ∨ z ∈ l
  | [], _ => by simp
  | x :: xs, acc => by
    rw [List.foldl_cons, mem_foldl_insertSorted le z xs _]
    simp only [mem_insertSorted, List.mem_cons]
    tauto

theorem mem_pySort (le : α → α → Bool) (z : α) (l : List α) :
    z ∈ pySort le l ↔ z ∈ l := by
  have := mem_foldl_insertSorted le z l []
  simpa [pySort] using this

/-! ## BPMN archive parsing (`parse_bizagi_group_by_diagram`)

The Python function opens the outer `.bpm` zip, iterates over the entries
whose lowercased name ends in `.diag`, opens each as a nested zip, and parses
its `Diagram.xml`.  We embed the result of the byte/zip/XML layer abstractly:
an entry either raises on `z.read` (`readError`), is not a zip
(`is_zipfile` false, `notZip`), lacks a `Diagram.xml` member
(`zipNoDiagramXml`), raises in `ET.fromstring` (`zipBadXml`), or parses into
a document (`zipXml`).  A parsed `Diagram.xml` is abstracted to the data the
code reads from it: the `Pool` element names, the `Activity` elements (id,
name, presence of `Route` / `Implementation` children), and the `Transition`
elements (`From`, `To`, `Name` attributes), all in document order, namespace
resolution being handled uniformly by the code. -/

/-- Python's `str.lower()` on the (ASCII-cased) strings this code compares:
character-wise lowercasing.  (Defined on the character list so that it
evaluates inside the kernel.) -/
def pyLower (s : String) : String := ⟨s.data.map Char.toLower⟩

/-- `s.replace(c, r)` for a single-character pattern. -/
def charReplace (c r : Char) (l : List Char) : List Char :=
  l.map (fun x => if x = c then r else x)

/-- `s.split()` on a character list: maximal runs of non-whitespace
characters, with `acc` holding the (reversed) current word. -/
def splitWsAux : List Char → List Char → List (List Char)
  | [], acc => if acc = [] then [] else [acc.reverse]
  | c :: cs, acc =>
    if c.isWhitespace then
      (if acc = [] then [] else [acc.reverse]) ++ splitWsAux cs []
    else splitWsAux cs (c :: acc)

/-- `normalize_label`: carriage returns and newlines become spaces, then the
string is split on whitespace runs and re-joined with single spaces
(`" ".join(s.replace("\r", " ").replace("\n", " ").split())`).  Implemented
on the character list so that it evaluates inside the kernel. -/
def normalize_label (s : String) : String :=
  ⟨List.intercalate [' ']
    (splitWsAux (charReplace '\n' ' ' (charReplace '\x0d' ' ' s.data)) [])⟩

/-- One `Activity` element of a `Diagram.xml`, as the parser reads it. -/
structure RawActivityXml where
  id : String
  name : String
  hasRoute : Bool
  hasImplementation : Bool
deriving DecidableEq, Repr

/-- One `Transition` element of a `Diagram.xml` (attributes `From`, `To`,
`Name`, defaulting to the empty string). -/
structure RawTransitionXml where
  fromId : String
  toId : String
  name : String
deriving DecidableEq, Repr

/-- The data the parser reads out of one `Diagram.xml` document. -/
structure XmlDoc where
  pools : List String
  activities : List RawActivityXml
  transitions : List RawTransitionXml
deriving DecidableEq, Repr

/-- Outcome of reading one archive entry, see the section header. -/
inductive EntryContent where
  | readError
  | notZip
  | zipNoDiagramXml
  | zipBadXml
  | zipXml (doc : XmlDoc)
deriving DecidableEq, Repr

/-- One entry of the outer `.bpm` archive. -/
structure Entry where
  name : String
  content : EntryContent
deriving DecidableEq, Repr

/-- A node of the normalized diagram (an element of the Python `nodes` dict):
`typ` is `"Route"`, `"Task"` or `"Activity"`. -/
structure RawNode where
  id : String
  name : String
  typ : String
  has_implementation : Bool
deriving DecidableEq, Repr

/-- A normalized transition (the Python `transitions` list element, keys
`"from"`, `"to"`, `"name"`). -/
structure RawTransition where
  fromId : String
  toId : String
  name : String
deriving DecidableEq, Repr

/-- `nodes[aid] = node`: Python dict assignment, replacing in place if the key
exists and appending otherwise (insertion order is preserved). -/
def dictInsert (m : List RawNode) (n : RawNode) : List RawNode :=
  if m.any (fun x => x.id = n.id) then
    m.map (fun x => if x.id = n.id then n else x)
  else m ++ [n]

/-- `nodes.get(k)`. -/
def dictGet (m : List RawNode) (k : String) : Option RawNode :=
  m.find? (fun x => x.id = k)

/-- `nodes.get(k, {}).get("name", "")`. -/
def dictGetName (m : List RawNode) (k : String) : String :=
  match dictGet m k with
  | some n => n.name
  | none => ""

/-- `n.lower().endswith(".diag")` (membership test of the `diags`
comprehension). -/
def isDiagName (n : String) : Bool :=
  List.isSuffixOf ".diag".data (pyLower n).data

/-- Diagram label derivation from the `Pool` names: prefer the first
normalized non-empty pool name that is not (case-insensitively)
`"processo principal"`, else the first pool name, else the entry name. -/
def diagramLabel (d : String) (doc : XmlDoc) : String :=
  let pool_names := doc.pools.map normalize_label
  match pool_names with
  | [] => d
  | p0 :: _ =>
    match pool_names.filter
        (fun p => p ≠ "" ∧ pyLower p ≠ "processo principal") with
    | q :: _ => q
    | [] => if p0 ≠ "" then p0 else d

/-- The `nodes` dict built from the `Activity` elements: a `Route` child makes
the node a `"Route"`, else an `Implementation` child makes it a `"Task"`,
else it is an `"Activity"`. -/
def docNodes (doc : XmlDoc) : List RawNode :=
  doc.activities.foldl
    (fun m act =>
      dictInsert m
        { id := act.id, name := normalize_label act.name,
          typ :=
            if act.hasRoute then "Route"
            else if act.hasImplementation then "Task" else "Activity",
          has_implementation := act.hasImplementation })
    []

/-- The `transitions` list built from the `Transition` elements. -/
def docTransitions (doc : XmlDoc) : List RawTransition :=
  doc.transitions.map
    (fun tr =>
      { fromId := tr.fromId, toId := tr.toId, name := normalize_label tr.name })

/-- `raise RuntimeError("Nenhum .diag encontrado dentro do .bpm")`. -/
inductive ImportError where
  | noDiagramsFound
deriving DecidableEq, Repr

/-- The three values `parse_bizagi_group_by_diagram` returns. -/
structure ParseResult where
  diagrams_labels : List (String × String)
  nodes_by_diag : List (String × List RawNode)
  transitions_by_diag : List (String × List RawTransition)
deriving DecidableEq, Repr

/-- The body of the `for d in diags` loop for one entry. -/
def processEntry (acc : ParseResult) (e : Entry) : ParseResult :=
  match e.content with
  | .readError =>
    { acc with diagrams_labels := acc.diagrams_labels ++ [(e.name, e.name)] }
  | .zipBadXml =>
    { acc with diagrams_labels := acc.diagrams_labels ++ [(e.name, e.name)] }
  | .notZip => acc
  | .zipNoDiagramXml => acc
  | .zipXml doc =>
    { diagrams_labels :=
        acc.diagrams_labels ++ [(e.name, diagramLabel e.name doc)],
      nodes_by_diag := acc.nodes_by_diag ++ [(e.name, docNodes doc)],
      transitions_by_diag :=
        acc.transitions_by_diag ++ [(e.name, docTransitions doc)] }

/-- Comparison used by `diagrams_labels.sort(key=lambda x: x[1])`: only the
label is compared, code-point-wise. -/
def labelLe (a b : String × String) : Bool := strLe a.2 b.2

/-- `parse_bizagi_group_by_diagram`: filter the `.diag` entries, fail with
`NoDiagramsFound` when there are none, otherwise process each entry in archive
order and finally sort the label list (stably) by label. -/
def parse_bizagi_group_by_diagram (entries : List Entry) :
    Except ImportError ParseResult :=
  let diags := entries.filter (fun e => isDiagName e.name)
  if diags = [] then .error .noDiagramsFound
  else
    let r := diags.foldl processEntry ⟨[], [], []⟩
    .ok { r with diagrams_labels := pySort labelLe r.diagrams_labels }

/-! ## Decision-field derivation (`build_task_fields_for_diagram`) -/

/-- One synthesized decision-field candidate (the `field_data` dict). -/
structure FieldData where
  id : String
  campo : String
  tipo : String
  opcoes : List String
deriving DecidableEq, Repr

/-- `out_by.get(k, [])`: the transitions leaving `k`, in list order (the dict
is built with `setdefault(...).append`, preserving transition order). -/
def out_by (transitions : List RawTransition) (k : String) :
    List RawTransition :=
  transitions.filter (fun t => t.fromId = k)

/-- `in_by.get(k, [])`. -/
def in_by (transitions : List RawTransition) (k : String) :
    List RawTransition :=
  transitions.filter (fun t => t.toId = k)

/-- Does the set of lowercased options equal `ys` as a set?  Models the Python
test `set(o.lower() for o in opts) in [...]`. -/
def sameSet (xs ys : List String) : Bool :=
  xs.all (fun x => ys.contains x) && ys.all (fun y => xs.contains y)

/-- The `opts` computation for one gateway: non-empty outgoing transition
names; else non-empty destination-node names; else, with exactly two outgoing
edges, the binary fallback `["Sim", "Não"]`. -/
def gatewayOptions (nodes : List RawNode) (outgoing : List RawTransition) :
    List String :=
  let opts := (outgoing.filter (fun t => t.name ≠ "")).map (fun t => t.name)
  let opts :=
    if opts = [] ∧ outgoing ≠ [] then
      (outgoing.map (fun t => dictGetName nodes t.toId)).filter (fun o => o ≠ "")
    else opts
  if opts = [] ∧ outgoing.length = 2 then ["Sim", "Não"] else opts

/-- The `tipo` classification: `"Lista (Sim/Não)"` exactly when the lowercased
options form the set `{"sim","não"}` or `{"sim","nao"}`, else `"Lista"`. -/
def gatewayTipo (opts : List String) : String :=
  if sameSet (opts.map (fun o => pyLower o)) ["sim", "não"] ∨
      sameSet (opts.map (fun o => pyLower o)) ["sim", "nao"] then
    "Lista (Sim/Não)"
  else "Lista"

/-- The inner `for inc in incoming` loop for one gateway `gw`: one candidate
per incoming edge whose source resolves to an implemented `Task` node, paired
with the source task id it is appended to. -/
def gwCandidates (nodes : List RawNode) (transitions : List RawTransition)
    (gw : RawNode) : List (String × FieldData) :=
  let outgoing := out_by transitions gw.id
  let opts := gatewayOptions nodes outgoing
  let tipo := gatewayTipo opts
  let campo_nome := normalize_label gw.name
  (in_by transitions gw.id).filterMap
    (fun inc =>
      match dictGet nodes inc.fromId with
      | some src =>
        if src.typ = "Task" ∧ src.has_implementation then
          some (src.id,
            { id := src.id ++ "_" ++ gw.id, campo := campo_nome,
              tipo := tipo, opcoes := opts })
        else none
      | none => none)

/-- `task_fields[tid].append(fd)` (a no-op on a missing key; in the source a
missing key is impossible because the append only happens for implemented
task nodes, which are exactly the keys). -/
def appendTaskField (tf : List (String × List FieldData)) (tid : String)
    (fd : FieldData) : List (String × List FieldData) :=
  tf.map (fun p => if p.1 = tid then (p.1, p.2 ++ [fd]) else p)

/-- Association-list lookup into the `task_fields` dict. -/
def lookupTF (tf : List (String × List FieldData)) (tid : String) :
    List FieldData :=
  match tf.find? (fun p => p.1 = tid) with
  | some p => p.2
  | none => []

/-- `build_task_fields_for_diagram`: the implemented tasks, and per task the
decision-field candidates collected over all gateways (outer loop) and their
qualifying incoming edges (inner loop). -/
def build_task_fields_for_diagram (nodes : List RawNode)
    (transitions : List RawTransition) :
    List RawNode × List (String × List FieldData) :=
  let tasks := nodes.filter (fun n => n.typ = "Task" ∧ n.has_implementation)
  let init := tasks.map (fun t => (t.id, ([] : List FieldData)))
  let gws := nodes.filter (fun n => n.typ = "Route")
  let task_fields :=
    gws.foldl
      (fun tf gw =>
        (gwCandidates nodes transitions gw).foldl
          (fun tf c => appendTaskField tf c.1 c.2) tf)
      init
  (tasks, task_fields)

/-! ### Bookkeeping lemmas for the `task_fields` dict -/

theorem keys_appendTaskField (tf : List (String × List FieldData))
    (tid : String) (fd : FieldData) (k : String) :
    ((appendTaskField tf tid fd).any (fun p => p.1 = k)) =
      (tf.any (fun p => p.1 = k)) := by
  induction tf with
  | nil => rfl
  | cons p tf ih =>
    by_cases hp : p.1 = tid <;>
      simp [appendTaskField, hp, List.any_cons] at ih ⊢ <;> simp [ih]

theorem lookupTF_cons (p : String × List FieldData)
    (tf : List (String × List FieldData)) (tid : String) :
    lookupTF (p :: tf) tid = if p.1 = tid then p.2 else lookupTF tf tid := by
  by_cases h : p.1 = tid <;> simp [lookupTF, List.find?_cons, h]

theorem appendTaskField_cons (p : String × List FieldData)
    (tf : List (String × List FieldData)) (tid : String) (fd : FieldData) :
    appendTaskField (p :: tf) tid fd =
      (if p.1 = tid then (p.1, p.2 ++ [fd]) else p) ::
        appendTaskField tf tid fd := rfl

theorem lookupTF_appendTaskField (tf : List (String × List FieldData))
    (tid' tid : String) (fd : FieldData) :
    lookupTF (appendTaskField tf tid' fd) tid =
      if tid' = tid ∧ (tf.any (fun p => p.1 = tid)) = true then
        lookupTF tf tid ++ [fd]
      else lookupTF tf tid := by
  induction tf with
  | nil => simp [appendTaskField, lookupTF]
  | cons p tf ih =>
    rw [appendTaskField_cons]
    by_cases hp1 : p.1 = tid'
    · rw [if_pos hp1, lookupTF_cons, lookupTF_cons]
      by_cases hp2 : p.1 = tid
      · have ht : tid' = tid := hp1.symm.trans hp2
        simp [hp2, ht, List.any_cons]
      · have ht : tid' ≠ tid := fun h => hp2 (hp1.trans h)
        simp [hp2, ht, ih, List.any_cons]
    · rw [if_neg hp1, lookupTF_cons, lookupTF_cons]
      by_cases hp2 : p.1 = tid
      · have ht : tid' ≠ tid := fun h => hp1 (hp2.trans h.symm)
        simp [hp2, ht]
      · have hd : (decide (p.1 = tid)) = false := by simp [hp2]
        simp only [if_neg hp2]
        rw [List.any_cons, hd, Bool.false_or]
        exact ih

theorem lookupTF_foldl_cands (tid : String) :
    ∀ (cands : List (String × FieldData)) (tf : List (String × List FieldData)),
      (∀ c ∈ cands, (tf.any (fun p => p.1 = c.1)) = true) →
      lookupTF (cands.foldl (fun tf c => appendTaskField tf c.1 c.2) tf) tid =
        lookupTF tf tid ++
          ((cands.filter (fun c => c.1 = tid)).map (fun c => c.2))
  | [], tf, _ => by simp
  | c :: cs, tf, h => by
    rw [List.foldl_cons,
      lookupTF_foldl_cands tid cs (appendTaskField tf c.1 c.2)
        (fun c' hc' => by
          rw [keys_appendTaskField]
          exact h c' (List.mem_cons_of_mem _ hc')),
      lookupTF_appendTaskField]
    by_cases hc : c.1 = tid
    · rw [if_pos ⟨hc, hc ▸ h c (List.mem_cons_self c cs)⟩, List.filter_cons,
        if_pos (by simpa using hc)]
      simp
    · rw [if_neg (fun hh => hc hh.1), List.filter_cons,
        if_neg (by simpa using hc)]

theorem keys_foldl_cands (k : String) :
    ∀ (cands : List (String × FieldData)) (tf : List (String × List FieldData)),
      ((cands.foldl (fun tf c => appendTaskField tf c.1 c.2) tf).any
          (fun p => p.1 = k)) = (tf.any (fun p => p.1 = k))
  | [], _ => rfl
  | c :: cs, tf => by
    rw [List.foldl_cons, keys_foldl_cands k cs _, keys_appendTaskField]

/-- Every candidate produced for gateway `gw` is attached to the id of an
implemented `Task` node of the diagram, reached through an incoming edge. -/
theorem gwCandidates_source (nodes : List RawNode)
    (transitions : List RawTransition) (gw : RawNode) :
    ∀ p ∈ gwCandidates nodes transitions gw,
      ∃ inc ∈ in_by transitions gw.id, ∃ src ∈ nodes,
        dictGet nodes inc.fromId = some src ∧ src.typ = "Task" ∧
        src.has_implementation = true ∧ p.1 = src.id := by
  intro p hp
  simp only [gwCandidates, List.mem_filterMap] at hp
  obtain ⟨inc, hinc, hmk⟩ := hp
  refine ⟨inc, hinc, ?_⟩
  cases hsrc : dictGet nodes inc.fromId with
  | none =>
    simp only [hsrc] at hmk
    exact absurd hmk (by simp)
  | some src =>
    simp only [hsrc] at hmk
    by_cases hq : src.typ = "Task" ∧ src.has_implementation = true
    · rw [if_pos hq] at hmk
      refine ⟨src, List.mem_of_find?_eq_some hsrc, rfl, hq.1, hq.2, ?_⟩
      cases hmk; rfl
    · rw [if_neg hq] at hmk
      exact absurd hmk (by simp)

/-- Concatenating with the same suffix is injective on Python (and Lean)
strings: `s1 + "_" + g = s2 + "_" + g` forces `s1 = s2`. -/
theorem append_underscore_cancel (s1 s2 g : String)
    (h : s1 ++ "_" ++ g = s2 ++ "_" ++ g) : s1 = s2 := by
  have hd := congrArg String.data h
  simp only [String.data_append, List.append_assoc] at hd
  exact String.ext (List.append_cancel_right hd)

/-- C6 membership characterization: what `gwCandidates` contains. -/
theorem mem_gwCandidates (nodes : List RawNode)
    (transitions : List RawTransition) (gw : RawNode)
    (p : String × FieldData) (hp : p ∈ gwCandidates nodes transitions gw) :
    p.2.id = p.1 ++ "_" ++ gw.id ∧
    p.2.campo = normalize_label gw.name ∧
    p.2.opcoes = gatewayOptions nodes (out_by transitions gw.id) ∧
    p.2.tipo = gatewayTipo (gatewayOptions nodes (out_by transitions gw.id)) := by
  simp only [gwCandidates, List.mem_filterMap] at hp
  obtain ⟨inc, _, hmk⟩ := hp
  cases hsrc : dictGet nodes inc.fromId with
  | none =>
    simp only [hsrc] at hmk
    exact absurd hmk (by simp)
  | some src =>
    simp only [hsrc] at hmk
    by_cases hq : src.typ = "Task" ∧ src.has_implementation = true
    · rw [if_pos hq] at hmk
      cases hmk
      exact ⟨rfl, rfl, rfl, rfl⟩
    · rw [if_neg hq] at hmk
      exact absurd hmk (by simp)

/-- Whether an incoming edge qualifies: its source resolves to an
implemented `Task` node. -/
def qualifies (nodes : List RawNode) (inc : RawTransition) : Bool :=
  match dictGet nodes inc.fromId with
  | some src => src.typ = "Task" && src.has_implementation
  | none => false

theorem length_filterMap_eq (f : α → Option β) :
    ∀ l : List α,
      (l.filterMap f).length = (l.filter (fun x => (f x).isSome)).length
  | [] => rfl
  | x :: xs => by
    cases hx : f x <;>
      simp [List.filterMap_cons, hx, List.filter_cons,
        length_filterMap_eq f xs]

theorem length_gwCandidates (nodes : List RawNode)
    (transitions : List RawTransition) (gw : RawNode) :
    (gwCandidates nodes transitions gw).length =
      ((in_by transitions gw.id).filter (qualifies nodes)).length := by
  rw [gwCandidates, length_filterMap_eq]
  refine congrArg List.length (List.filter_congr ?_)
  intro inc _
  cases hsrc : dictGet nodes inc.fromId with
  | none => simp [qualifies, hsrc]
  | some src =>
    by_cases h1 : src.typ = "Task" <;>
      by_cases h2 : src.has_implementation = true <;>
        simp [qualifies, hsrc, h1, h2]

theorem lookupTF_init (tid : String) :
    ∀ tasks : List RawNode,
      lookupTF (tasks.map (fun t => (t.id, ([] : List FieldData)))) tid = []
  | [] => rfl
  | t :: ts => by
    rw [List.map_cons, lookupTF_cons]
    by_cases h : t.id = tid <;> simp [h, lookupTF_init tid ts]

theorem lookupTF_foldl_gws (nodes : List RawNode)
    (transitions : List RawTransition) (tid : String) :
    ∀ (gws : List RawNode) (tf : List (String × List FieldData)),
      (∀ gw ∈ gws, ∀ c ∈ gwCandidates nodes transitions gw,
        (tf.any (fun p => p.1 = c.1)) = true) →
      lookupTF
        (gws.foldl
          (fun tf gw =>
            (gwCandidates nodes transitions gw).foldl
              (fun tf c => appendTaskField tf c.1 c.2) tf) tf) tid =
        lookupTF tf tid ++
          gws.flatMap
            (fun gw =>
              ((gwCandidates nodes transitions gw).filter
                (fun c => c.1 = tid)).map (fun c => c.2))
  | [], tf, _ => by simp
  | gw :: gws, tf, h => by
    rw [List.foldl_cons,
      lookupTF_foldl_gws nodes transitions tid gws _
        (fun gw' hgw' c hc => by
          rw [keys_foldl_cands]
          exact h gw' (List.mem_cons_of_mem _ hgw') c hc),
      lookupTF_foldl_cands tid _ tf (h gw (List.mem_cons_self gw gws)),
      List.flatMap_cons, List.append_assoc]

/-- C6.  For every gateway, `gwCandidates` synthesizes exactly one candidate
per qualifying incoming edge (source an implemented `Task` node); every
candidate has id `{source_task_id}_{gateway_id}` and label the gateway's
normalized name; candidates of one gateway share options and kind but get
distinct ids for distinct upstream tasks; and the fields
`build_task_fields_for_diagram` attaches to a task are exactly the candidates
naming that task, gateway by gateway. -/
theorem C6_gateway_candidates (nodes : List RawNode)
    (transitions : List RawTransition) :
    (∀ gw : RawNode,
      (gwCandidates nodes transitions gw).length =
        ((in_by transitions gw.id).filter (qualifies nodes)).length ∧
      (∀ p ∈ gwCandidates nodes transitions gw,
        p.2.id = p.1 ++ "_" ++ gw.id ∧
        p.2.campo = normalize_label gw.name) ∧
      (∀ p ∈ gwCandidates nodes transitions gw,
        ∀ q ∈ gwCandidates nodes transitions gw,
          p.2.opcoes = q.2.opcoes ∧ p.2.tipo = q.2.tipo ∧
          (p.1 ≠ q.1 → p.2.id ≠ q.2.id))) ∧
    (∀ t ∈ (build_task_fields_for_diagram nodes transitions).1,
      lookupTF (build_task_fields_for_diagram nodes transitions).2 t.id =
        (nodes.filter (fun n => n.typ = "Route")).flatMap
          (fun gw =>
            ((gwCandidates nodes transitions gw).filter
              (fun c => c.1 = t.id)).map (fun c => c.2))) := by
  constructor
  · intro gw
    refine ⟨length_gwCandidates nodes transitions gw, ?_, ?_⟩
    · intro p hp
      exact ⟨(mem_gwCandidates nodes transitions gw p hp).1,
        (mem_gwCandidates nodes transitions gw p hp).2.1⟩
    · intro p hp q hq
      obtain ⟨hpid, _, hpo, hpt⟩ := mem_gwCandidates nodes transitions gw p hp
      obtain ⟨hqid, _, hqo, hqt⟩ := mem_gwCandidates nodes transitions gw q hq
      refine ⟨hpo.trans hqo.symm, hpt.trans hqt.symm, ?_⟩
      intro hne heq
      rw [hpid, hqid] at heq
      exact hne (append_underscore_cancel _ _ _ heq)
  · intro t ht
    have hkeys : ∀ gw ∈ nodes.filter (fun n => n.typ = "Route"),
        ∀ c ∈ gwCandidates nodes transitions gw,
        (((nodes.filter (fun n => n.typ = "Task" ∧ n.has_implementation)).map
            (fun t => (t.id, ([] : List FieldData)))).any
          (fun p => p.1 = c.1)) = true := by
      intro gw _ c hc
      obtain ⟨inc, _, src, hsrcmem, _, htyp, himpl, hid⟩ :=
        gwCandidates_source nodes transitions gw c hc
      refine List.any_eq_true.2 ⟨(src.id, []), ?_, by simp [hid]⟩
      exact List.mem_map.2
        ⟨src, List.mem_filter.2 ⟨hsrcmem, by simp [htyp, himpl]⟩, rfl⟩
    show lookupTF _ t.id = _
    rw [build_task_fields_for_diagram]
    simp only
    rw [lookupTF_foldl_gws nodes transitions t.id _ _ hkeys, lookupTF_init]
    rfl

/-- The spec's example scenario for C6: implemented tasks `A` and `B` both
feed gateway `G`, whose outgoing transitions are named `Aprovado` and
`Reprovado`; each task receives one candidate, ids `A_G` and `B_G`, same
label and options. -/
def exNodesC6 : List RawNode :=
  [{ id := "A", name := "Tarefa A", typ := "Task", has_implementation := true },
   { id := "B", name := "Tarefa B", typ := "Task", has_implementation := true },
   { id := "G", name := "Aprovar?", typ := "Route", has_implementation := false }]

def exTransC6 : List RawTransition :=
  [{ fromId := "A", toId := "G", name := "" },
   { fromId := "B", toId := "G", name := "" },
   { fromId := "G", toId := "X", name := "Aprovado" },
   { fromId := "G", toId := "Y", name := "Reprovado" }]

def exNodeA : RawNode :=
  { id := "A", name := "Tarefa A", typ := "Task", has_implementation := true }

def exNodeB : RawNode :=
  { id := "B", name := "Tarefa B", typ := "Task", has_implementation := true }

/-- Witness for C6 on the spec's example scenario. -/
theorem C6_gateway_candidates_witness :
    lookupTF (build_task_fields_for_diagram exNodesC6 exTransC6).2 "A" =
      [{ id := "A_G", campo := "Aprovar?", tipo := "Lista",
         opcoes := ["Aprovado", "Reprovado"] }] ∧
    lookupTF (build_task_fields_for_diagram exNodesC6 exTransC6).2 "B" =
      [{ id := "B_G", campo := "Aprovar?", tipo := "Lista",
         opcoes := ["Aprovado", "Reprovado"] }] := by
  have h := (C6_gateway_candidates exNodesC6 exTransC6).2
  exact ⟨(h exNodeA (by decide)).trans (by decide),
    (h exNodeB (by decide)).trans (by decide)⟩

/-- C7.  A gateway with exactly two outgoing transitions, all unnamed and with
empty-named (or absent) destinations, falls back to options
`["Sim", "Não"]`, classified `"Lista (Sim/Não)"`; every candidate derived for
such a gateway carries these options and kind. -/
theorem C7_binary_fallback (nodes : List RawNode)
    (transitions : List RawTransition) (gw : RawNode)
    (hlen : (out_by transitions gw.id).length = 2)
    (hn : ∀ tr ∈ out_by transitions gw.id, tr.name = "")
    (hd : ∀ tr ∈ out_by transitions gw.id, dictGetName nodes tr.toId = "") :
    gatewayOptions nodes (out_by transitions gw.id) = ["Sim", "Não"] ∧
    gatewayTipo (gatewayOptions nodes (out_by transitions gw.id)) =
      "Lista (Sim/Não)" ∧
    ∀ p ∈ gwCandidates nodes transitions gw,
      p.2.opcoes = ["Sim", "Não"] ∧ p.2.tipo = "Lista (Sim/Não)" := by
  have hA : ((out_by transitions gw.id).filter
      (fun t => t.name ≠ "")).map (fun t => t.name) = [] := by
    have : (out_by transitions gw.id).filter (fun t => t.name ≠ "") = [] :=
      List.filter_eq_nil_iff.2 (fun t ht => by simp [hn t ht])
    rw [this]; rfl
  have hB : ((out_by transitions gw.id).map
      (fun t => dictGetName nodes t.toId)).filter (fun o => o ≠ "") = [] :=
    List.filter_eq_nil_iff.2 (fun o ho => by
      obtain ⟨t, ht, rfl⟩ := List.mem_map.1 ho
      simp [hd t ht])
  have hne : out_by transitions gw.id ≠ [] := by
    intro h
    rw [h] at hlen
    exact absurd hlen (by simp)
  have hopts : gatewayOptions nodes (out_by transitions gw.id) =
      ["Sim", "Não"] := by
    rw [gatewayOptions]
    simp only [hA, hB, hne, hlen]
    simp
  refine ⟨hopts, by rw [hopts]; decide, ?_⟩
  intro p hp
  obtain ⟨_, _, hpo, hpt⟩ := mem_gwCandidates nodes transitions gw p hp
  rw [hpo, hpt, hopts]
  exact ⟨rfl, by decide⟩

def exNodesC7 : List RawNode :=
  [{ id := "T", name := "Tarefa", typ := "Task", has_implementation := true },
   { id := "G", name := "Pergunta", typ := "Route", has_implementation := false },
   { id := "D1", name := "", typ := "Activity", has_implementation := false }]

def exTransC7 : List RawTransition :=
  [{ fromId := "T", toId := "G", name := "" },
   { fromId := "G", toId := "D1", name := "" },
   { fromId := "G", toId := "D2", name := "" }]

/-- Witness for C7: a concrete gateway with two unnamed outgoing edges whose
destinations have no usable names. -/
theorem C7_binary_fallback_witness :
    gatewayOptions exNodesC7
        (out_by exTransC7 "G") = ["Sim", "Não"] ∧
    gatewayTipo (gatewayOptions exNodesC7 (out_by exTransC7 "G")) =
      "Lista (Sim/Não)" := by
  have h := C7_binary_fallback exNodesC7 exTransC7
    { id := "G", name := "Pergunta", typ := "Route",
      has_implementation := false }
    (by decide) (by decide) (by decide)
  exact ⟨h.1, h.2.1⟩

/-! ### Shape of the parse fold -/

/-- The label entries one archive entry contributes (fallback pair for
read/XML errors, parsed label for a good diagram, nothing when skipped). -/
def entryLabels (e : Entry) : List (String × String) :=
  match e.content with
  | .readError => [(e.name, e.name)]
  | .zipBadXml => [(e.name, e.name)]
  | .notZip => []
  | .zipNoDiagramXml => []
  | .zipXml doc => [(e.name, diagramLabel e.name doc)]

/-- The `nodes_by_diag` entries one archive entry contributes. -/
def entryNodes (e : Entry) : List (String × List RawNode) :=
  match e.content with
  | .zipXml doc => [(e.name, docNodes doc)]
  | _ => []

/-- The `transitions_by_diag` entries one archive entry contributes. -/
def entryTransBy (e : Entry) : List (String × List RawTransition) :=
  match e.content with
  | .zipXml doc => [(e.name, docTransitions doc)]
  | _ => []

theorem foldl_processEntry (l : List Entry) :
    ∀ acc : ParseResult,
      l.foldl processEntry acc =
        { diagrams_labels := acc.diagrams_labels ++ l.flatMap entryLabels,
          nodes_by_diag := acc.nodes_by_diag ++ l.flatMap entryNodes,
          transitions_by_diag :=
            acc.transitions_by_diag ++ l.flatMap entryTransBy } := by
  induction l with
  | nil => intro acc; simp
  | cons e l ih =>
    intro acc
    rw [List.foldl_cons, ih]
    cases e with
    | mk nm ct =>
      cases ct <;>
        simp [processEntry, entryLabels, entryNodes, entryTransBy,
          List.flatMap_cons]

theorem entryLabels_fst (e : Entry) :
    ∀ p ∈ entryLabels e, p.1 = e.name := by
  intro p hp
  cases hc : e.content <;>
    simp only [entryLabels, hc, List.mem_singleton, List.not_mem_nil] at hp <;>
    (subst hp; rfl)

theorem entryNodes_fst (e : Entry) :
    ∀ p ∈ entryNodes e, p.1 = e.name := by
  intro p hp
  cases hc : e.content <;>
    simp only [entryNodes, hc, List.mem_singleton, List.not_mem_nil] at hp <;>
    (subst hp; rfl)

/-- The unsorted label list the loop accumulates. -/
def rawLabels (entries : List Entry) : List (String × String) :=
  (entries.filter (fun e => isDiagName e.name)).flatMap entryLabels

theorem parse_ok_iff (entries : List Entry) :
    (∃ r, parse_bizagi_group_by_diagram entries = .ok r) ↔
      entries.filter (fun e => isDiagName e.name) ≠ [] := by
  rw [parse_bizagi_group_by_diagram]
  by_cases h : entries.filter (fun e => isDiagName e.name) = [] <;>
    simp [h]

theorem parse_ok_elim (entries : List Entry) (r : ParseResult)
    (h : parse_bizagi_group_by_diagram entries = .ok r) :
    r.diagrams_labels = pySort labelLe (rawLabels entries) ∧
    r.nodes_by_diag =
      (entries.filter (fun e => isDiagName e.name)).flatMap entryNodes ∧
    r.transitions_by_diag =
      (entries.filter (fun e => isDiagName e.name)).flatMap entryTransBy := by
  rw [parse_bizagi_group_by_diagram] at h
  by_cases hd : entries.filter (fun e => isDiagName e.name) = []
  · rw [if_pos hd] at h
    exact absurd h (by simp)
  · rw [if_neg hd] at h
    rw [foldl_processEntry] at h
    cases h
    refine ⟨?_, by simp [rawLabels], by simp [rawLabels]⟩
    simp [rawLabels]

/-- C3, amended.  The read fails with `NoDiagramsFound` exactly when the outer
archive has no entry with the `.diag` extension; whenever at least one `.diag`
entry parses into a diagram, the read succeeds with a non-empty label list. -/
theorem C3_no_diagrams_found (entries : List Entry) :
    (parse_bizagi_group_by_diagram entries = .error .noDiagramsFound ↔
      entries.filter (fun e => isDiagName e.name) = []) ∧
    (∀ e ∈ entries, isDiagName e.name = true →
      (∃ doc, e.content = .zipXml doc) →
      ∃ r, parse_bizagi_group_by_diagram entries = .ok r ∧
        r.diagrams_labels ≠ []) := by
  constructor
  · rw [parse_bizagi_group_by_diagram]
    by_cases h : entries.filter (fun e => isDiagName e.name) = [] <;>
      simp [h]
  · intro e he hdiag ⟨doc, hdoc⟩
    have hmem : e ∈ entries.filter (fun e => isDiagName e.name) :=
      List.mem_filter.2 ⟨he, by simp [hdiag]⟩
    have hne : entries.filter (fun e => isDiagName e.name) ≠ [] :=
      fun h => by rw [h] at hmem; cases hmem
    obtain ⟨r, hr⟩ := (parse_ok_iff entries).2 hne
    refine ⟨r, hr, ?_⟩
    rw [(parse_ok_elim entries r hr).1]
    intro hnil
    have : (e.name, diagramLabel e.name doc) ∈ rawLabels entries :=
      List.mem_flatMap.2 ⟨e, hmem, by simp [entryLabels, hdoc]⟩
    rw [← mem_pySort labelLe _ (rawLabels entries), hnil] at this
    cases this

/-- C3, counterexample to the claim as stated: an archive whose only `.diag`
entry is not a nested zip yields no usable diagram, yet the read does NOT
fail with `NoDiagramsFound` — it returns an empty diagram list.  (Only the
complete absence of `.diag` entries raises the error.) -/
theorem C3_no_diagrams_found_counterexample :
    parse_bizagi_group_by_diagram [⟨"a.diag", .notZip⟩] =
      .ok { diagrams_labels := [], nodes_by_diag := [],
            transitions_by_diag := [] } ∧
    parse_bizagi_group_by_diagram [⟨"a.diag", .notZip⟩] ≠
      .error .noDiagramsFound := by
  constructor
  · rfl
  · intro h
    cases h

/-- Witness for C3 (amended): a concrete archive with one parseable `.diag`
entry, on which the read succeeds with a non-empty list. -/
theorem C3_no_diagrams_found_witness :
    ∃ r, parse_bizagi_group_by_diagram
        [⟨"b.diag", .zipXml ⟨["Fluxo"], [], []⟩⟩] = .ok r ∧
      r.diagrams_labels ≠ [] :=
  (C3_no_diagrams_found [⟨"b.diag", .zipXml ⟨["Fluxo"], [], []⟩⟩]).2
    ⟨"b.diag", .zipXml ⟨["Fluxo"], [], []⟩⟩ (by decide) (by decide)
    ⟨⟨["Fluxo"], [], []⟩, rfl⟩

/-- C8, amended.  Per-entry degradation behaviour of the reader: an entry
whose bytes cannot be read or whose `Diagram.xml` fails XML parsing degrades
to a label-only fallback `(entry_name, entry_name)`; an entry that is not a
zip or lacks `Diagram.xml` is silently skipped (no entry at all); an entry
whose `Diagram.xml` parses contributes its parsed label, nodes and
transitions regardless of how sibling entries fail. -/
theorem C8_per_diagram_degradation (entries : List Entry) (e : Entry)
    (he : e ∈ entries) (hdiag : isDiagName e.name = true)
    (hnodup : (entries.map (fun e => e.name)).Nodup) :
    ∃ r, parse_bizagi_group_by_diagram entries = .ok r ∧
      ((e.content = .readError ∨ e.content = .zipBadXml) →
        (e.name, e.name) ∈ r.diagrams_labels) ∧
      ((e.content = .notZip ∨ e.content = .zipNoDiagramXml) →
        (∀ p ∈ r.diagrams_labels, p.1 ≠ e.name) ∧
        (∀ p ∈ r.nodes_by_diag, p.1 ≠ e.name)) ∧
      (∀ doc, e.content = .zipXml doc →
        (e.name, diagramLabel e.name doc) ∈ r.diagrams_labels ∧
        (e.name, docNodes doc) ∈ r.nodes_by_diag ∧
        (e.name, docTransitions doc) ∈ r.transitions_by_diag) := by
  have hmem : e ∈ entries.filter (fun e => isDiagName e.name) :=
    List.mem_filter.2 ⟨he, by simp [hdiag]⟩
  have hne : entries.filter (fun e => isDiagName e.name) ≠ [] :=
    fun h => by rw [h] at hmem; cases hmem
  obtain ⟨r, hr⟩ := (parse_ok_iff entries).2 hne
  obtain ⟨hl, hn, ht⟩ := parse_ok_elim entries r hr
  have huniq : ∀ e' ∈ entries.filter (fun e => isDiagName e.name),
      e'.name = e.name → e' = e := by
    intro e' he' hname
    exact List.inj_on_of_nodup_map hnodup (List.mem_of_mem_filter he') he hname
  refine ⟨r, hr, ?_, ?_, ?_⟩
  · intro hc
    rw [hl, mem_pySort]
    refine List.mem_flatMap.2 ⟨e, hmem, ?_⟩
    rcases hc with hc | hc <;> simp [entryLabels, hc]
  · intro hc
    constructor
    · intro p hp
      rw [hl, mem_pySort] at hp
      obtain ⟨e', he', hpe'⟩ := List.mem_flatMap.1 hp
      intro hpn
      have : e' = e := huniq e' he' ((entryLabels_fst e' p hpe').symm.trans hpn)
      subst this
      rcases hc with hc | hc <;> simp [entryLabels, hc] at hpe'
    · intro p hp
      rw [hn] at hp
      obtain ⟨e', he', hpe'⟩ := List.mem_flatMap.1 hp
      intro hpn
      have : e' = e := huniq e' he' ((entryNodes_fst e' p hpe').symm.trans hpn)
      subst this
      rcases hc with hc | hc <;> simp [entryNodes, hc] at hpe'
  · intro doc hc
    refine ⟨?_, ?_, ?_⟩
    · rw [hl, mem_pySort]
      exact List.mem_flatMap.2 ⟨e, hmem, by simp [entryLabels, hc]⟩
    · rw [hn]
      exact List.mem_flatMap.2 ⟨e, hmem, by simp [entryNodes, hc]⟩
    · rw [ht]
      exact List.mem_flatMap.2 ⟨e, hmem, by simp [entryTransBy, hc]⟩

/-- C8, counterexample to the claim as stated: an entry that fails to open as
a nested archive (`is_zipfile` false) does NOT degrade to a label-only
fallback — it is skipped entirely, while its parseable sibling is returned. -/
theorem C8_per_diagram_degradation_counterexample :
    parse_bizagi_group_by_diagram
        [⟨"x.diag", .notZip⟩, ⟨"y.diag", .zipXml ⟨["P"], [], []⟩⟩] =
      .ok { diagrams_labels := [("y.diag", "P")],
            nodes_by_diag := [("y.diag", [])],
            transitions_by_diag := [("y.diag", [])] } ∧
    ∀ p ∈ [("y.diag", "P")], p.1 ≠ "x.diag" := by
  exact ⟨rfl, by decide⟩

/-- Witness for C8 (amended) on a concrete archive mixing a bad-XML entry, a
skipped not-a-zip entry, and a parseable sibling. -/
theorem C8_per_diagram_degradation_witness :
    ∃ r, parse_bizagi_group_by_diagram
        [⟨"a.diag", .zipBadXml⟩, ⟨"b.diag", .notZip⟩,
         ⟨"c.diag", .zipXml ⟨["Fluxo C"], [], []⟩⟩] = .ok r ∧
      ("a.diag", "a.diag") ∈ r.diagrams_labels ∧
      (∀ p ∈ r.diagrams_labels, p.1 ≠ "b.diag") ∧
      ("c.diag", diagramLabel "c.diag" ⟨["Fluxo C"], [], []⟩) ∈
        r.diagrams_labels := by
  obtain ⟨r, hr, hfb, hskip, hxml⟩ :=
    C8_per_diagram_degradation
      [⟨"a.diag", .zipBadXml⟩, ⟨"b.diag", .notZip⟩,
       ⟨"c.diag", .zipXml ⟨["Fluxo C"], [], []⟩⟩]
      ⟨"a.diag", .zipBadXml⟩ (by decide) (by decide) (by decide)
  obtain ⟨r', hr', _, hskip', _⟩ :=
    C8_per_diagram_degradation
      [⟨"a.diag", .zipBadXml⟩, ⟨"b.diag", .notZip⟩,
       ⟨"c.diag", .zipXml ⟨["Fluxo C"], [], []⟩⟩]
      ⟨"b.diag", .notZip⟩ (by decide) (by decide) (by decide)
  obtain ⟨r'', hr'', _, _, hxml''⟩ :=
    C8_per_diagram_degradation
      [⟨"a.diag", .zipBadXml⟩, ⟨"b.diag", .notZip⟩,
       ⟨"c.diag", .zipXml ⟨["Fluxo C"], [], []⟩⟩]
      ⟨"c.diag", .zipXml ⟨["Fluxo C"], [], []⟩⟩ (by decide) (by decide)
      (by decide)
    
  cases hr'.symm.trans hr
  cases hr''.symm.trans hr
  exact ⟨r, hr, hfb (Or.inr rfl), (hskip' (Or.inl rfl)).1,
    (hxml'' ⟨["Fluxo C"], [], []⟩ rfl).1⟩

/-- C9, amended.  The returned diagram list is sorted by label under plain
code-point string comparison, and diagrams with equal labels keep their
original archive-entry order (stable sort) — they are NOT reordered by entry
name. -/
theorem C9_label_sort (entries : List Entry) (r : ParseResult)
    (h : parse_bizagi_group_by_diagram entries = .ok r) :
    r.diagrams_labels.Pairwise (fun a b => strLe a.2 b.2 = true) ∧
    ∀ lab : String,
      r.diagrams_labels.filter (fun p => p.2 = lab) =
        (rawLabels entries).filter (fun p => p.2 = lab) := by
  have htot : ∀ a b : String × String, (labelLe a b || labelLe b a) = true :=
    fun a b => charsLe_total a.2.data b.2.data
  have htrans : ∀ a b c : String × String,
      labelLe a b = true → labelLe b c = true → labelLe a c = true :=
    fun a b c h1 h2 => charsLe_trans a.2.data b.2.data c.2.data h1 h2
  rw [(parse_ok_elim entries r h).1]
  constructor
  · exact pairwise_pySort labelLe htot htrans (rawLabels entries)
  · intro lab
    refine filter_pySort labelLe (fun p => p.2 = lab) htot htrans ?_
      (rawLabels entries)
    intro a b ha hb
    have ha' : a.2 = lab := by simpa using ha
    have hb' : b.2 = lab := by simpa using hb
    show charsLe a.2.data b.2.data = true
    rw [ha', hb']
    exact charsLe_refl lab.data

/-- C9, counterexample to the tie-breaking claim: two diagrams with the same
label appear in archive-entry order (`b.diag` before `a.diag`), not ordered
by entry name (`"a.diag" < "b.diag"`). -/
theorem C9_label_sort_counterexample :
    parse_bizagi_group_by_diagram
        [⟨"b.diag", .zipXml ⟨["L"], [], []⟩⟩,
         ⟨"a.diag", .zipXml ⟨["L"], [], []⟩⟩] =
      .ok { diagrams_labels := [("b.diag", "L"), ("a.diag", "L")],
            nodes_by_diag := [("b.diag", []), ("a.diag", [])],
            transitions_by_diag := [("b.diag", []), ("a.diag", [])] } ∧
    strLe "a.diag" "b.diag" = true ∧ ("a.diag" : String) ≠ "b.diag" := by
  exact ⟨rfl, by decide, by decide⟩

/-- Witness for C9 (amended) on a concrete two-diagram archive. -/
theorem C9_label_sort_witness :
    ([("a.diag", "A"), ("b.diag", "B")] :
        List (String × String)).Pairwise (fun a b => strLe a.2 b.2 = true) ∧
    ([("a.diag", "A"), ("b.diag", "B")] :
        List (String × String)).filter (fun p => p.2 = "A") =
      [("a.diag", "A")] := by
  have h := C9_label_sort
    [⟨"b.diag", .zipXml ⟨["B"], [], []⟩⟩, ⟨"a.diag", .zipXml ⟨["A"], [], []⟩⟩]
    { diagrams_labels := [("a.diag", "A"), ("b.diag", "B")],
      nodes_by_diag := [("b.diag", []), ("a.diag", [])],
      transitions_by_diag := [("b.diag", []), ("a.diag", [])] }
    rfl
  exact ⟨h.1, (h.2 "A").trans (by decide)⟩

/-! ## The live field-graph model

`Condition`, `Field`, `Task`, `ProjectModel` are the dataclasses of
`DESIGNER.py` with their declared defaults.  Integers are `Int`, optional
strings `Option String`; Python truthiness of an optional string (`None` and
`""` are falsy) is `pyTruthyOpt`. -/

/-- `s.strip()`. -/
def pyStrip (s : String) : String :=
  ⟨((s.data.dropWhile Char.isWhitespace).reverse.dropWhile
      Char.isWhitespace).reverse⟩

/-- Truthiness of an optional string: `None` and `""` are falsy. -/
def pyTruthyOpt : Option String → Bool
  | none => false
  | some s => s ≠ ""

structure Condition where
  src_field : String
  op : String
  value : String
deriving DecidableEq, Repr

structure ObjectFieldDef where
  name : String
  ftype : String := "Texto"
  options : String := ""
  required : Bool := false
  readonly : Bool := true
  group : String := ""
  order : Int := 0
  note : String := ""
deriving DecidableEq, Repr

structure Field where
  id : String
  name : String := "Novo campo"
  ftype : String := "Texto"
  required : Bool := false
  readonly : Bool := false
  info : String := ""
  options : String := ""
  note : String := ""
  origin_task : Option String := none
  origin_field : Option String := none
  name_locked : Bool := false
  name_lock_reason : String := ""   -- "", "objeto", "origem"
  name_before_obj : String := ""
  name_before_origin : String := ""
  obj_type : String := ""
  cond : List Condition := []
deriving DecidableEq, Repr

structure Task where
  id : String
  name : String
  fields : List Field := []
deriving DecidableEq, Repr

structure ProjectModel where
  flow_name : String := "Novo fluxo"
  tasks : List Task := []
  object_type : String := ""
  object_schema : List ObjectFieldDef := []
deriving DecidableEq, Repr

/-! ### Serialization (`ProjectModel.to_dict` / `ProjectModel.from_dict`)

`to_dict` emits a nested dict with every key present; `from_dict` reads each
key back with a default.  The dicts `to_dict` produces are modelled by mirror
structures (`FieldDict`, `TaskDict`, `ProjectDict`) carrying exactly the
emitted keys; `ObjectFieldDef` is serialized through `vars`/constructor
round-trip, which on complete dicts is the identity, so it serves as its own
dict. -/

structure FieldDict where
  id : String
  name : String
  ftype : String
  required : Bool
  readonly : Bool
  info : String
  options : String
  note : String
  origin_task : Option String
  origin_field : Option String
  name_locked : Bool
  name_lock_reason : String
  name_before_obj : String
  name_before_origin : String
  obj_type : String
  cond : List Condition
deriving DecidableEq, Repr

structure TaskDict where
  id : String
  name : String
  fields : List FieldDict
deriving DecidableEq, Repr

structure ProjectDict where
  flow_name : String
  object_type : String
  object_schema : List ObjectFieldDef
  tasks : List TaskDict
deriving DecidableEq, Repr

def Field.toDict (f : Field) : FieldDict :=
  { id := f.id, name := f.name, ftype := f.ftype, required := f.required,
    readonly := f.readonly, info := f.info, options := f.options,
    note := f.note, origin_task := f.origin_task,
    origin_field := f.origin_field, name_locked := f.name_locked,
    name_lock_reason := f.name_lock_reason,
    name_before_obj := f.name_before_obj,
    name_before_origin := f.name_before_origin, obj_type := f.obj_type,
    cond := f.cond }

def Task.toDict (t : Task) : TaskDict :=
  { id := t.id, name := t.name, fields := t.fields.map Field.toDict }

def ProjectModel.toDict (p : ProjectModel) : ProjectDict :=
  { flow_name := p.flow_name, object_type := p.object_type,
    object_schema := p.object_schema, tasks := p.tasks.map Task.toDict }

/-- `from_dict` on a field dict (all keys present, so the `fd.get` defaults
never fire). -/
def Field.ofDict (fd : FieldDict) : Field :=
  { id := fd.id, name := fd.name, ftype := fd.ftype, required := fd.required,
    readonly := fd.readonly, info := fd.info, options := fd.options,
    note := fd.note, origin_task := fd.origin_task,
    origin_field := fd.origin_field, name_locked := fd.name_locked,
    name_lock_reason := fd.name_lock_reason,
    name_before_obj := fd.name_before_obj,
    name_before_origin := fd.name_before_origin, obj_type := fd.obj_type,
    cond := fd.cond }

def Task.ofDict (td : TaskDict) : Task :=
  { id := td.id, name := td.name, fields := td.fields.map Field.ofDict }

def ProjectModel.ofDict (d : ProjectDict) : ProjectModel :=
  { flow_name := d.flow_name, tasks := d.tasks.map Task.ofDict,
    object_type := d.object_type, object_schema := d.object_schema }

theorem Field_ofDict_toDict (f : Field) : Field.ofDict f.toDict = f := rfl

theorem Task_ofDict_toDict (t : Task) : Task.ofDict t.toDict = t := by
  cases t with
  | mk id name fields =>
    simp only [Task.toDict, Task.ofDict, List.map_map, Function.comp_def]
    rw [List.map_congr_left (fun f _ => Field_ofDict_toDict f), List.map_id']

theorem ProjectModel_ofDict_toDict (p : ProjectModel) :
    ProjectModel.ofDict p.toDict = p := by
  cases p with
  | mk fn ts ot os =>
    simp only [ProjectModel.toDict, ProjectModel.ofDict, List.map_map,
      Function.comp_def]
    rw [List.map_congr_left (fun t _ => Task_ofDict_toDict t), List.map_id']

/-! ### Application state, history and Objeto re-normalization -/

/-- What `_serialize_project` captures. -/
structure Snapshot where
  project : ProjectDict
  current_task_id : Option String
  selected_field_ids : List String
deriving DecidableEq, Repr

/-- The `App` state the modelled operations touch: the live project, the
current-task pointer, the selection, and the two history stacks.  (The
Python selection is a `set`; it is modelled as the list of its elements.) -/
structure AppState where
  project : ProjectModel
  current_task_id : Option String := none
  selected_field_ids : List String := []
  undo_stack : List Snapshot := []
  redo_stack : List Snapshot := []
deriving DecidableEq, Repr

/-- The task lookup `_get_task` performs, on an explicit task list and
current pointer. -/
def getTaskFrom (tasks : List Task) (cur : Option String) : Option Task :=
  match cur with
  | none => tasks.head?
  | some t => tasks.find? (fun x => x.id = t)

/-- `_get_task` (without its incidental caching of the first task id):
`task_id or self.current_task_id`; when that is `None`, the first task. -/
def AppState.getTask (s : AppState) (task_id : Option String := none) :
    Option Task :=
  getTaskFrom s.project.tasks
    (match task_id with
      | some t => some t
      | none => s.current_task_id)

/-- `_serialize_project`. -/
def serializeProject (s : AppState) : Snapshot :=
  { project := s.project.toDict,
    current_task_id := (s.getTask).map (fun t => t.id),
    selected_field_ids := s.selected_field_ids }

/-- The body of the `ajustar campos Objeto` loop of `_apply_project_dict` for
one field, threading the (possibly adopted) global object-type name. -/
def normFieldObjeto (ot : String) (f : Field) : String × Field :=
  if f.ftype = "Objeto" then
    let ot := if ot = "" then (if f.obj_type ≠ "" then f.obj_type else f.name)
      else ot
    (ot,
      { f with
          obj_type := ot
          name := ot
          name_lock_reason := "objeto"
          name_locked := true })
  else (ot, f)

/-- The field loop of `ajustar campos Objeto`, threading the (possibly
adopted) global object-type name left to right. -/
def threadFields : String → List Field → String × List Field
  | ot, [] => (ot, [])
  | ot, f :: fs =>
    let q := normFieldObjeto ot f
    let r := threadFields q.1 fs
    (r.1, q.2 :: r.2)

def normTaskObjeto (ot : String) (t : Task) : String × Task :=
  let r := threadFields ot t.fields
  (r.1, { t with fields := r.2 })

/-- The task loop of `ajustar campos Objeto`. -/
def threadTasks : String → List Task → String × List Task
  | ot, [] => (ot, [])
  | ot, t :: ts =>
    let q := normTaskObjeto ot t
    let r := threadTasks q.1 ts
    (r.1, q.2 :: r.2)

/-- The forced re-normalization of every `"Objeto"` field performed by
`_apply_project_dict` (lines 2139-2147): adopt a global object-type name from
the first Objeto field whose `obj_type or name` is non-empty if none is set,
then overwrite each Objeto field's `obj_type` and `name` with the global name
at that moment and lock it. -/
def ProjectModel.normalizeObjeto (p : ProjectModel) : ProjectModel :=
  let r := threadTasks p.object_type p.tasks
  { p with object_type := r.1, tasks := r.2 }

/-- `tid in valid_ids` on an optional id (`None in valid_ids` is `False`). -/
def optMemB (o : Option String) (l : List String) : Bool :=
  match o with
  | some t => t ∈ l
  | none => false

/-- `_apply_project_dict` on a history snapshot (the snapshot always carries a
well-formed project dict, so the error paths cannot fire): decode the project,
restore/validate the current-task pointer and the selection, and re-normalize
every Objeto field. -/
def applyProjectDict (s : AppState) (d : Snapshot) : AppState :=
  let p0 := ProjectModel.ofDict d.project
  let valid_ids := p0.tasks.map (fun t => t.id)
  let valid_field_ids := p0.tasks.flatMap (fun t => t.fields.map (fun f => f.id))
  let desired : Option String :=
    if pyTruthyOpt d.current_task_id && optMemB d.current_task_id valid_ids then
      d.current_task_id
    else if pyTruthyOpt s.current_task_id &&
        optMemB s.current_task_id valid_ids then
      s.current_task_id
    else none
  let current := match desired with
    | some t => some t
    | none => (p0.tasks.head?).map (fun t => t.id)
  { s with
    project := p0.normalizeObjeto,
    current_task_id := current,
    selected_field_ids :=
      d.selected_field_ids.filter (fun fid => fid ∈ valid_field_ids) }

def UNDO_MAX : Nat := 50

/-- `_push_undo`: append the serialized state, cap the stack at `UNDO_MAX`
by dropping the oldest entry, clear the redo stack. -/
def pushUndo (s : AppState) : AppState :=
  let st := s.undo_stack ++ [serializeProject s]
  let st := if st.length > UNDO_MAX then st.tail else st
  { s with undo_stack := st, redo_stack := [] }

/-- `undo_action`. -/
def undoAction (s : AppState) : AppState :=
  match s.undo_stack.getLast? with
  | none => s
  | some state =>
    let s' : AppState :=
      { s with
          redo_stack := s.redo_stack ++ [serializeProject s]
          undo_stack := s.undo_stack.dropLast }
    applyProjectDict s' state

/-- `redo_action`. -/
def redoAction (s : AppState) : AppState :=
  match s.redo_stack.getLast? with
  | none => s
  | some state =>
    let s' : AppState :=
      { s with
          undo_stack := s.undo_stack ++ [serializeProject s]
          redo_stack := s.redo_stack.dropLast }
    applyProjectDict s' state

/-! ### Mutation operations (`App` methods)

Each operation mirrors the corresponding method body: its guard structure,
its `_push_undo()` call (before any model change; rejected operations that
have already pushed leave the model itself untouched), and its record
updates.  UI-only side effects (widget refreshes, message boxes, metadata
caches) have no model content and are omitted; a message-box warning is
surfaced as a `MutationError` where the spec names one. -/

def LIST_FIELD_TYPES : List String := ["Lista", "Lista Vários"]

inductive MutationError where
  | originIncompatible   -- "Campo Objeto não pode ter origem." / picker refuses
  | objectTypeConflict   -- "Só 1 Objeto por tarefa."
  | objectTypeNameMissing  -- object-type dialog closed without a name
  | originNotFound       -- "Campo de origem não encontrado."
deriving DecidableEq, Repr

/-- Apply `upd` to the field with id `fid` of the current task. -/
def updCurrentField (s : AppState) (fid : String) (upd : Field → Field) :
    AppState :=
  match s.getTask with
  | none => s
  | some t =>
    { s with
        project :=
          { s.project with
              tasks := s.project.tasks.map (fun t' =>
                if t'.id = t.id then
                  { t' with fields := t'.fields.map (fun f =>
                      if f.id = fid then upd f else f) }
                else t') } }

/-- The reference cleanup `_delete_field` runs on every field of every task:
drop visibility rules whose source is the deleted field; clear an origin
pointing at it, restoring the pre-link name only when one was recorded, and
unlock unless another lock reason remains. -/
def cleanupFieldRef (field_id : String) (f : Field) : Field :=
  let f := { f with cond := f.cond.filter (fun c => c.src_field ≠ field_id) }
  if f.origin_field = some field_id then
    let f :=
      if f.name_lock_reason = "origem" ∧ f.name_before_origin ≠ "" then
        { f with name := f.name_before_origin }
      else f
    let reason := if f.name_lock_reason = "origem" then "" else f.name_lock_reason
    { f with
        origin_task := none
        origin_field := none
        name_lock_reason := reason
        name_locked := reason ≠ "" }
  else f

/-- `open_tasks_dialog.cleanup_refs`: the same cleanup against a set of
deleted field ids. -/
def cleanupFieldRefs (ids : List String) (f : Field) : Field :=
  let f := { f with cond := f.cond.filter (fun c => c.src_field ∉ ids) }
  if optMemB f.origin_field ids then
    let f :=
      if f.name_lock_reason = "origem" ∧ f.name_before_origin ≠ "" then
        { f with name := f.name_before_origin }
      else f
    let reason := if f.name_lock_reason = "origem" then "" else f.name_lock_reason
    { f with
        origin_task := none
        origin_field := none
        name_lock_reason := reason
        name_locked := reason ≠ "" }
  else f

/-- `_add_field` (the dialog offered when there are no tasks mutates
nothing). -/
def addField (fid : String) (s : AppState) : AppState :=
  if s.project.tasks = [] then s
  else
    let s := pushUndo s
    match s.getTask with
    | none => s
    | some t =>
      { s with
          project :=
            { s.project with
                tasks := s.project.tasks.map (fun t' =>
                  if t'.id = t.id then
                    { t' with fields := t'.fields ++ [{ id := fid }] }
                  else t') } }

/-- The task-list transformation of `_delete_field`: clean references in
every field of every task, then drop the field from the current task. -/
def deleteFieldTasks (current : Option Task) (field_id : String)
    (tasks : List Task) : List Task :=
  (tasks.map (fun t =>
    { t with fields := t.fields.map (cleanupFieldRef field_id) })).map
    (fun t =>
      if current.map (fun c => c.id) = some t.id then
        { t with fields := t.fields.filter (fun f => f.id ≠ field_id) }
      else t)

/-- `_delete_field`: push, clean references project-wide, then remove the
field from the current task. -/
def deleteField (field_id : String) (s : AppState) : AppState :=
  if s.project.tasks = [] then s
  else
    let s := pushUndo s
    { s with
        project :=
          { s.project with
              tasks := deleteFieldTasks s.getTask field_id s.project.tasks } }

/-- The task-list transformation of `delete_task`: `cleanup_refs` over the
deleted task's field ids, then removal of the task itself. -/
def deleteTaskTasks (deleted_ids : List String) (tid : String)
    (tasks : List Task) : List Task :=
  (tasks.map (fun t' =>
    { t' with fields := t'.fields.map (cleanupFieldRefs deleted_ids) })).filter
    (fun t' => t'.id ≠ tid)

/-- `open_tasks_dialog.delete_task` (invoked with an existing task): push,
clean references to all of the task's fields, remove the task, move the
current-task pointer off the deleted task. -/
def deleteTask (tid : String) (s : AppState) : AppState :=
  match s.project.tasks.find? (fun t => t.id = tid) with
  | none => s
  | some t =>
    let s := pushUndo s
    let tasks := deleteTaskTasks (t.fields.map (fun f => f.id)) tid
      s.project.tasks
    let current :=
      if s.current_task_id = some tid then (tasks.head?).map (fun x => x.id)
      else s.current_task_id
    { s with
        project := { s.project with tasks := tasks }
        current_task_id := current }

/-- `open_tasks_dialog.add_task_from_entry` (an empty stripped name mutates
nothing; `tid` stands in for the generated `_uid()`). -/
def addTask (tid name : String) (s : AppState) : AppState :=
  if pyStrip name = "" then s
  else
    let s := pushUndo s
    let s :=
      { s with
          project :=
            { s.project with
                tasks := s.project.tasks ++
                  [{ id := tid, name := pyStrip name, fields := [] }] } }
    if pyTruthyOpt s.current_task_id then s
    else { s with current_task_id := some tid }

/-- `open_tasks_dialog.rename_task` on a task of the project. -/
def renameTask (tid newName : String) (s : AppState) : AppState :=
  match s.project.tasks.find? (fun t => t.id = tid) with
  | none => s
  | some _ =>
    let s := pushUndo s
    { s with
        project :=
          { s.project with
              tasks := s.project.tasks.map (fun t =>
                if t.id = tid then { t with name := newName } else t) } }

def listSwap (l : List α) (i j : Nat) : List α :=
  match l.get? i, l.get? j with
  | some a, some b => (l.set i b).set j a
  | _, _ => l

/-- `_move_field`: swap the field with its neighbour at `idx + delta` when
that index is in range. -/
def moveField (field_id : String) (delta : Int) (s : AppState) : AppState :=
  match s.getTask with
  | none => s
  | some task =>
    match task.fields.findIdx? (fun f => f.id = field_id) with
    | none => s
    | some idx =>
      let new_idx : Int := (idx : Int) + delta
      if 0 ≤ new_idx ∧ new_idx < (task.fields.length : Int) then
        let s := pushUndo s
        { s with
            project :=
              { s.project with
                  tasks := s.project.tasks.map (fun t' =>
                    if t'.id = task.id then
                      { t' with fields := listSwap t'.fields idx new_idx.toNat }
                    else t') } }
      else s

/-- `open_flow_object_type_dialog.ok` with a non-empty stripped name: push,
set the flow object-type name, re-normalize every existing Objeto field to
it. -/
def applyObjectTypeName (name : String) (s : AppState) : AppState :=
  let s := pushUndo s
  { s with
      project :=
        { s.project with
            object_type := name
            tasks := s.project.tasks.map (fun t =>
              { t with fields := t.fields.map (fun f =>
                  if f.ftype = "Objeto" then
                    { f with
                        obj_type := name
                        name := name
                        name_lock_reason := "objeto"
                        name_locked := true }
                  else f) }) } }

/-- `open_flow_object_type_dialog`: the modal loops until OK is pressed with
a non-empty stripped name, or the window is closed (`none`). -/
def objectTypeDialog (supplied : Option String) (s : AppState) :
    Option AppState :=
  match supplied with
  | none => none
  | some nm => if pyStrip nm = "" then none else some (applyObjectTypeName (pyStrip nm) s)

/-- The mutation `_on_change_type` applies to the field when it becomes
`"Objeto"` (given the flow's object-type name at that moment). -/
def objetoField (object_type : String) (f : Field) : Field :=
  let f := { f with ftype := "Objeto" }
  let f :=
    if f.name_lock_reason ≠ "objeto" then { f with name_before_obj := f.name }
    else f
  { f with
      name := if object_type ≠ "" then object_type else "Objeto"
      name_lock_reason := "objeto"
      name_locked := true
      obj_type := object_type }

/-- The mutation `_on_change_type` applies to the field when it leaves
`"Objeto"`. -/
def unObjetoField (newType : String) (f : Field) : Field :=
  let f :=
    if f.name_lock_reason = "objeto" ∧ f.name_before_obj ≠ "" then
      { f with name := f.name_before_obj }
    else f
  let reason :=
    if f.name_lock_reason = "objeto" then "" else f.name_lock_reason
  { f with
      name_lock_reason := reason
      name_locked := reason ≠ ""
      obj_type := ""
      ftype := newType }

/-- The common tail of `_on_change_type`: `Informativo` forces read-only, and
non-list non-informative types clear the options. -/
def changeTypeTail (fid newType : String) (s : AppState) : AppState :=
  let s :=
    if newType = "Informativo" then
      updCurrentField s fid (fun f => { f with readonly := true })
    else s
  if newType ∉ LIST_FIELD_TYPES ∧ newType ≠ "Informativo" then
    updCurrentField s fid (fun f => { f with options := "" })
  else s

/-- `_on_change_type` on the field `fid` of the current task.  `supplied`
models the object-type dialog's outcome when the flow has no object-type name
yet.  Returns the new state and the rejection (if any). -/
def changeTypeCore (fid newType : String) (supplied : Option String)
    (s : AppState) : AppState × Option MutationError :=
  match s.getTask with
  | none => (s, none)
  | some t =>
  match t.fields.find? (fun f => f.id = fid) with
  | none => (s, none)
  | some f =>
    let prev := f.ftype
    if newType = prev then (s, none)
    else
      let s1 := pushUndo s
      if newType = "Objeto" then
        if pyTruthyOpt f.origin_task || pyTruthyOpt f.origin_field then
          (s1, some .originIncompatible)
        else if t.fields.any (fun x => x.ftype = "Objeto" ∧ x.id ≠ f.id) then
          (s1, some .objectTypeConflict)
        else
          match (if s1.project.object_type = "" then objectTypeDialog supplied s1
            else some s1) with
          | none => (s1, some .objectTypeNameMissing)
          | some s2 =>
            let s3 := updCurrentField s2 fid
              (objetoField s2.project.object_type)
            (changeTypeTail fid newType s3, none)
      else if prev = "Objeto" then
        let s2 := updCurrentField s1 fid (unObjetoField newType)
        (changeTypeTail fid newType s2, none)
      else
        (changeTypeTail fid newType
          (updCurrentField s1 fid (fun f => { f with ftype := newType })), none)

def changeType (fid newType : String) (supplied : Option String)
    (s : AppState) : AppState :=
  (changeTypeCore fid newType supplied s).1

/-- `open_origin_picker.clear` (only reachable for a non-Objeto field): push,
restore the recorded pre-link name when the lock reason is the origin link,
clear the link, unlock unless another reason remains. -/
def clearOriginField (f : Field) : Field :=
  let f :=
    if f.name_lock_reason = "origem" ∧ f.name_before_origin ≠ "" then
      { f with name := f.name_before_origin }
    else f
  let reason := if f.name_lock_reason = "origem" then "" else f.name_lock_reason
  { f with
      origin_task := none
      origin_field := none
      name_lock_reason := reason
      name_locked := reason ≠ "" }

def clearOrigin (fid : String) (s : AppState) : AppState :=
  let s := pushUndo s
  updCurrentField s fid clearOriginField

/-- The mutation `open_origin_picker.ok` applies to the target field on
success: set the link, record the pre-link name when newly locked, copy the
origin field's name/type/options, lock with the origin reason, and apply the
dialog's read-only/required checkboxes. -/
def originField (target_tid : Option String) (origin_fld : Field)
    (force_ro force_req : Bool) (f : Field) : Field :=
  let f :=
    { f with
        origin_task := target_tid
        origin_field := some origin_fld.id }
  let f :=
    if f.name_lock_reason ≠ "origem" then
      { f with name_before_origin := f.name }
    else f
  { f with
      name := origin_fld.name
      ftype := origin_fld.ftype
      options := origin_fld.options
      name_lock_reason := "origem"
      name_locked := true
      readonly := force_ro
      required := force_req }

/-- `open_origin_picker` + its `ok` callback for the field `fid` of the
current task: the picker refuses object-typed fields; the target task is
resolved by name and the origin field by name inside it; a missing selection
falls back to `clear`; on success the origin link is set and the origin
field's name, type and options are copied onto `fid`, whose name is locked
with the origin reason. -/
def setOriginCore (fid sel_t sel_f : String) (force_ro force_req : Bool)
    (s : AppState) : AppState × Option MutationError :=
  match s.getTask with
  | none => (s, none)
  | some cur =>
  match cur.fields.find? (fun f => f.id = fid) with
  | none => (s, none)
  | some f =>
    if f.ftype = "Objeto" then (s, some .originIncompatible)
    else
      let target_tid := (s.project.tasks.find? (fun t => t.name = sel_t)).map
        (fun t => t.id)
      if ¬ (pyTruthyOpt target_tid = true) ∨ sel_f = "" ∨ sel_f = "-" then
        (clearOrigin fid s, none)
      else
        match s.getTask target_tid with
        | none => (s, none)
        | some t =>
          match t.fields.find? (fun fld => fld.name = sel_f) with
          | none => (s, some .originNotFound)
          | some origin_fld =>
            let s := pushUndo s
            let s := updCurrentField s fid
              (originField target_tid origin_fld force_ro force_req)
            (s, none)

def setOrigin (fid sel_t sel_f : String) (force_ro force_req : Bool)
    (s : AppState) : AppState :=
  (setOriginCore fid sel_t sel_f force_ro force_req s).1

/-- The picker's `Limpar` button (guarded by the picker's Objeto check). -/
def pickerClear (fid : String) (s : AppState) : AppState :=
  match s.getTask with
  | none => s
  | some cur =>
    match cur.fields.find? (fun f => f.id = fid) with
    | none => s
    | some f => if f.ftype = "Objeto" then s else clearOrigin fid s

/-- `open_cond_builder.add_cond` on the field `fid` of the current task: the
base field is resolved by name in the current task, the value is stripped and
must be non-empty, and a structurally equal rule is rejected before any push. -/
def addCond (fid base_name val : String) (s : AppState) : AppState :=
  match s.getTask with
  | none => s
  | some cur =>
  match cur.fields.find? (fun f => f.id = fid) with
  | none => s
  | some f =>
    match cur.fields.find? (fun fld => fld.name = base_name) with
    | none => s
    | some fld =>
      let v := pyStrip val
      if v = "" then s
      else if f.cond.any (fun c =>
          c.src_field = fld.id ∧ c.op = "==" ∧ c.value = v) then s
      else
        let s := pushUndo s
        updCurrentField s fid (fun f =>
          { f with cond := f.cond ++ [⟨fld.id, "==", v⟩] })

/-- `_set_readonly`. -/
def setReadonly (fid : String) (val : Bool) (s : AppState) : AppState :=
  let s := pushUndo s
  updCurrentField s fid (fun f =>
    if f.ftype = "Informativo" then { f with readonly := true }
    else { f with readonly := val })

/-- The standalone object-type dialog (menu entry). -/
def setObjectTypeOp (name : String) (s : AppState) : AppState :=
  if pyStrip name = "" then s else applyObjectTypeName (pyStrip name) s

/-- The modelled mutation-operation surface of the `App`. -/
inductive Op where
  | addField (fid : String)
  | deleteField (fid : String)
  | deleteTask (tid : String)
  | addTask (tid name : String)
  | renameTask (tid name : String)
  | moveField (fid : String) (delta : Int)
  | changeType (fid newType : String) (supplied : Option String)
  | setOrigin (fid sel_t sel_f : String) (ro rq : Bool)
  | clearOrigin (fid : String)
  | addCond (fid base val : String)
  | setReadonly (fid : String) (v : Bool)
  | setObjectType (name : String)
deriving DecidableEq, Repr

def applyOp : Op → AppState → AppState
  | .addField fid => addField fid
  | .deleteField fid => deleteField fid
  | .deleteTask tid => deleteTask tid
  | .addTask tid name => addTask tid name
  | .renameTask tid name => renameTask tid name
  | .moveField fid delta => moveField fid delta
  | .changeType fid newType supplied => changeType fid newType supplied
  | .setOrigin fid st sf ro rq => setOrigin fid st sf ro rq
  | .clearOrigin fid => pickerClear fid
  | .addCond fid base val => addCond fid base val
  | .setReadonly fid v => setReadonly fid v
  | .setObjectType name => setObjectTypeOp name

/-- The freshly started application (`App.__init__`). -/
def initialAppState : AppState :=
  { project := {} }

/-- States reachable from the fresh application through the modelled
mutation operations. -/
inductive Reach : AppState → Prop where
  | init : Reach initialAppState
  | step : ∀ (s : AppState) (o : Op), Reach s → Reach (applyOp o s)

/-! ### C1: project-wide reference cleanup on field deletion -/

theorem cleanupFieldRef_cond (fid : String) (f : Field) :
    (cleanupFieldRef fid f).cond =
      f.cond.filter (fun c => c.src_field ≠ fid) := by
  simp only [cleanupFieldRef]
  split_ifs <;> rfl

theorem cleanupFieldRef_origin (fid : String) (f : Field) :
    (cleanupFieldRef fid f).origin_field ≠ some fid := by
  simp only [cleanupFieldRef]
  split_ifs with h1 h2 <;> simp_all

theorem cleanupFieldRefs_cond (ids : List String) (f : Field) :
    (cleanupFieldRefs ids f).cond =
      f.cond.filter (fun c => c.src_field ∉ ids) := by
  simp only [cleanupFieldRefs]
  split_ifs <;> rfl

theorem cleanupFieldRefs_origin (ids : List String) (f : Field) :
    ∀ fid ∈ ids, (cleanupFieldRefs ids f).origin_field ≠ some fid := by
  intro fid hfid
  simp only [cleanupFieldRefs]
  split_ifs with h1 h2 <;> simp_all [optMemB]
  · intro h
    rw [h] at h1
    simp at h1
    exact h1 hfid

theorem cleanupFieldRef_restore (fid : String) (f : Field)
    (ho : f.origin_field = some fid) (hr : f.name_lock_reason = "origem") :
    (cleanupFieldRef fid f).name_locked = false ∧
    (cleanupFieldRef fid f).name_lock_reason = "" ∧
    (f.name_before_origin ≠ "" →
      (cleanupFieldRef fid f).name = f.name_before_origin) := by
  simp only [cleanupFieldRef]
  split_ifs with h1 h2 <;> simp_all

theorem cleanupFieldRef_keep (fid : String) (f : Field)
    (hr : f.name_lock_reason ≠ "origem") :
    (cleanupFieldRef fid f).name_lock_reason = f.name_lock_reason ∧
    (cleanupFieldRef fid f).name = f.name := by
  simp only [cleanupFieldRef]
  split_ifs with h1 h2 <;> simp_all

theorem mem_deleteFieldTasks (current : Option Task) (fid : String)
    (tasks : List Task) :
    ∀ t' ∈ deleteFieldTasks current fid tasks, ∀ f' ∈ t'.fields,
      ∃ f0, f' = cleanupFieldRef fid f0 := by
  intro t' ht' f' hf'
  rw [deleteFieldTasks] at ht'
  obtain ⟨t1, ht1, rfl⟩ := List.mem_map.1 ht'
  obtain ⟨t0, _, rfl⟩ := List.mem_map.1 ht1
  by_cases hc : current.map (fun c => c.id) =
      some ({ t0 with fields := t0.fields.map (cleanupFieldRef fid) } : Task).id
  · rw [if_pos hc] at hf'
    have := List.mem_of_mem_filter hf'
    obtain ⟨f0, _, rfl⟩ := List.mem_map.1 this
    exact ⟨f0, rfl⟩
  · rw [if_neg hc] at hf'
    obtain ⟨f0, _, rfl⟩ := List.mem_map.1 hf'
    exact ⟨f0, rfl⟩

theorem mem_deleteTaskTasks (ids : List String) (tid : String)
    (tasks : List Task) :
    ∀ t' ∈ deleteTaskTasks ids tid tasks, ∀ f' ∈ t'.fields,
      ∃ f0, f' = cleanupFieldRefs ids f0 := by
  intro t' ht' f' hf'
  have ht1 := List.mem_of_mem_filter ht'
  obtain ⟨t0, _, rfl⟩ := List.mem_map.1 ht1
  obtain ⟨f0, _, rfl⟩ := List.mem_map.1 hf'
  exact ⟨f0, rfl⟩

theorem deleteField_tasks (s : AppState) (fid : String)
    (h : s.project.tasks ≠ []) :
    (deleteField fid s).project.tasks =
      deleteFieldTasks s.getTask fid s.project.tasks := by
  rw [deleteField, if_neg h]
  rfl

theorem deleteTask_tasks (s : AppState) (tid : String) (t : Task)
    (hfind : s.project.tasks.find? (fun x => x.id = tid) = some t) :
    (deleteTask tid s).project.tasks =
      deleteTaskTasks (t.fields.map (fun f => f.id)) tid s.project.tasks := by
  rw [deleteTask, hfind]
  rfl

/-- C1, amended.  Deleting a field `F` — directly, or as part of deleting its
owning task — leaves no visibility rule whose source is `F` and no origin
pointing at `F` anywhere in the project; every field whose origin pointed at
`F` and whose name was locked for that origin is unlocked (unless another
lock reason remains), and its pre-link name is restored provided the recorded
pre-link name is non-empty (an empty record leaves the copied name in
place). -/
theorem C1_delete_field_reference_cleanup (s : AppState) (fid : String) :
    (s.project.tasks ≠ [] →
      ∀ t' ∈ (deleteField fid s).project.tasks, ∀ f' ∈ t'.fields,
        (∀ c ∈ f'.cond, c.src_field ≠ fid) ∧ f'.origin_field ≠ some fid) ∧
    (∀ (tid : String) (t : Task),
      s.project.tasks.find? (fun x => x.id = tid) = some t →
      fid ∈ t.fields.map (fun f => f.id) →
      ∀ t' ∈ (deleteTask tid s).project.tasks, ∀ f' ∈ t'.fields,
        (∀ c ∈ f'.cond, c.src_field ≠ fid) ∧ f'.origin_field ≠ some fid) ∧
    (∀ f : Field, f.origin_field = some fid → f.name_lock_reason = "origem" →
      (cleanupFieldRef fid f).name_locked = false ∧
      (cleanupFieldRef fid f).name_lock_reason = "" ∧
      (f.name_before_origin ≠ "" →
        (cleanupFieldRef fid f).name = f.name_before_origin)) ∧
    (∀ f : Field, f.name_lock_reason ≠ "origem" →
      (cleanupFieldRef fid f).name_lock_reason = f.name_lock_reason ∧
      (cleanupFieldRef fid f).name = f.name) := by
  refine ⟨?_, ?_, ?_, ?_⟩
  · intro h t' ht' f' hf'
    rw [deleteField_tasks s fid h] at ht'
    obtain ⟨f0, rfl⟩ :=
      mem_deleteFieldTasks s.getTask fid s.project.tasks t' ht' f' hf'
    constructor
    · intro c hc
      rw [cleanupFieldRef_cond] at hc
      simpa using (List.mem_filter.1 hc).2
    · exact cleanupFieldRef_origin fid f0
  · intro tid t hfind hfid t' ht' f' hf'
    rw [deleteTask_tasks s tid t hfind] at ht'
    obtain ⟨f0, rfl⟩ :=
      mem_deleteTaskTasks (t.fields.map (fun f => f.id)) tid
        s.project.tasks t' ht' f' hf'
    constructor
    · intro c hc
      rw [cleanupFieldRefs_cond] at hc
      have h2 := of_decide_eq_true (List.mem_filter.1 hc).2
      intro he
      rw [he] at h2
      exact h2 hfid
    · exact cleanupFieldRefs_origin (t.fields.map (fun f => f.id)) f0 fid hfid
  · intro f ho hr
    exact cleanupFieldRef_restore fid f ho hr
  · intro f hr
    exact cleanupFieldRef_keep fid f hr

def c1Src : Field := { id := "f1", name := "Src" }

/-- A field linked to `f1` at a moment its name was empty: the recorded
pre-link name is `""` (reachable by clearing the name in the grid and then
picking an origin, or by loading a project file in this shape —
`_apply_project_dict` does not validate origin bookkeeping). -/
def c1Linked : Field :=
  { id := "g"
    name := "Src"
    origin_task := some "t"
    origin_field := some "f1"
    name_locked := true
    name_lock_reason := "origem"
    name_before_origin := "" }

def c1Task : Task := { id := "t", name := "T", fields := [c1Src, c1Linked] }

def c1State : AppState :=
  { project := { tasks := [c1Task] }, current_task_id := some "t" }

/-- C1, counterexample to the claim as stated: after deleting `f1`, the field
`g` — whose origin pointed at `f1` and whose name was locked for that origin —
keeps the copied name `"Src"` instead of having its pre-link name (recorded
as `""`) restored, because the restore is guarded by
`f.name_before_origin` being truthy. -/
theorem C1_delete_field_reference_cleanup_counterexample :
    c1Linked.origin_field = some "f1" ∧
    c1Linked.name_lock_reason = "origem" ∧ c1Linked.name_locked = true ∧
    c1Linked.name_before_origin = "" ∧
    (deleteField "f1" c1State).project.tasks =
      [{ id := "t", name := "T", fields := [{ id := "g", name := "Src" }] }] ∧
    ("Src" : String) ≠ c1Linked.name_before_origin := by
  refine ⟨rfl, rfl, rfl, rfl, ?_, by decide⟩
  rfl

def c1wLinked : Field :=
  { id := "g"
    name := "Src"
    origin_task := some "t"
    origin_field := some "f1"
    name_locked := true
    name_lock_reason := "origem"
    name_before_origin := "Velho" }

def c1wTask : Task := { id := "t", name := "T", fields := [c1Src, c1wLinked] }

def c1wState : AppState :=
  { project := { tasks := [c1wTask] }, current_task_id := some "t" }

/-- Witness for C1 (amended) on a concrete project where the pre-link name
was recorded. -/
theorem C1_delete_field_reference_cleanup_witness :
    (∀ t' ∈ (deleteField "f1" c1wState).project.tasks, ∀ f' ∈ t'.fields,
      (∀ c ∈ f'.cond, c.src_field ≠ "f1") ∧ f'.origin_field ≠ some "f1") ∧
    (cleanupFieldRef "f1" c1wLinked).name = "Velho" ∧
    (cleanupFieldRef "f1" c1wLinked).name_locked = false := by
  have h := C1_delete_field_reference_cleanup c1wState "f1"
  have hr := h.2.2.1 c1wLinked (by decide) (by decide)
  exact ⟨h.1 (by decide), hr.2.2 (by decide), hr.1⟩

/-! ### C4/C5: type changes and origin links -/

/-- The field `fid` of the current task, as an operation result is observed. -/
def resultField (s : AppState) (fid : String) : Option Field :=
  (s.getTask).bind (fun t => t.fields.find? (fun f => f.id = fid))

theorem getTaskFrom_map (tasks : List Task) (cur : Option String)
    (g : Task → Task) (hg : ∀ t, (g t).id = t.id) :
    getTaskFrom (tasks.map g) cur = (getTaskFrom tasks cur).map g := by
  cases cur with
  | none => simp [getTaskFrom]
  | some tid =>
    simp only [getTaskFrom, List.find?_map]
    have e : ((fun t : Task => decide (t.id = tid)) ∘ g) =
        (fun t : Task => decide (t.id = tid)) := by
      funext t
      simp [hg t]
    rw [e]

theorem find?_map_id_preserving (fields : List Field) (fid : String)
    (h : Field → Field) (hh : ∀ f, (h f).id = f.id) :
    (fields.map h).find? (fun f => f.id = fid) =
      (fields.find? (fun f => f.id = fid)).map h := by
  rw [List.find?_map]
  have e : ((fun f : Field => decide (f.id = fid)) ∘ h) =
      (fun f : Field => decide (f.id = fid)) := by
    funext f
    simp [hh f]
  rw [e]

theorem resultField_updCurrentField (s : AppState) (fid : String)
    (u : Field → Field) (hu : ∀ f, (u f).id = f.id) :
    resultField (updCurrentField s fid u) fid =
      (resultField s fid).map u := by
  rw [updCurrentField]
  cases ht : s.getTask with
  | none => simp [resultField, ht]
  | some t =>
    have hinner : ∀ f : Field,
        ((if f.id = fid then u f else f) : Field).id = f.id := by
      intro f
      by_cases hfi : f.id = fid <;> simp [hfi, hu f]
    simp only [resultField, AppState.getTask] at ht ⊢
    show ((getTaskFrom (s.project.tasks.map (fun t' =>
        if t'.id = t.id then
          ({ t' with fields := t'.fields.map (fun f =>
              if f.id = fid then u f else f) } : Task)
        else t')) s.current_task_id).bind
        (fun t => t.fields.find? (fun f => f.id = fid))) = _
    rw [getTaskFrom_map _ _ _ (fun t' => by
      by_cases h : t'.id = t.id <;> simp [h]), ht]
    show (((if t.id = t.id then
        ({ t with fields := t.fields.map (fun f =>
            if f.id = fid then u f else f) } : Task)
      else t)).fields.find? (fun f => f.id = fid)) =
      (t.fields.find? (fun f => f.id = fid)).map u
    rw [if_pos rfl]
    show ((t.fields.map (fun f => if f.id = fid then u f else f)).find?
      (fun f => f.id = fid)) = _
    rw [find?_map_id_preserving t.fields fid _ hinner]
    cases hf : t.fields.find? (fun f => f.id = fid) with
    | none => rfl
    | some f =>
      have hid := List.find?_some hf
      show some (if f.id = fid then u f else f) = some (u f)
      rw [if_pos (by simpa using hid)]

theorem project_updCurrentField (s : AppState) (fid : String)
    (u : Field → Field) :
    (updCurrentField s fid u).project.object_type = s.project.object_type ∧
    (updCurrentField s fid u).current_task_id = s.current_task_id := by
  rw [updCurrentField]
  cases s.getTask <;> exact ⟨rfl, rfl⟩

/-- The per-field action of `applyObjectTypeName`. -/
def objNameField (nm : String) (f : Field) : Field :=
  if f.ftype = "Objeto" then
    { f with
        obj_type := nm
        name := nm
        name_lock_reason := "objeto"
        name_locked := true }
  else f

theorem resultField_applyObjectTypeName (s : AppState) (fid : String)
    (nm : String) :
    resultField (applyObjectTypeName nm s) fid =
      (resultField (pushUndo s) fid).map (objNameField nm) := by
  have hid : ∀ f : Field, (objNameField nm f).id = f.id := by
    intro f
    rw [objNameField]
    by_cases hf : f.ftype = "Objeto" <;> simp [hf]
  simp only [applyObjectTypeName, resultField, AppState.getTask]
  show ((getTaskFrom ((pushUndo s).project.tasks.map (fun t =>
      ({ t with fields := t.fields.map (fun f =>
          if f.ftype = "Objeto" then
            { f with
                obj_type := nm
                name := nm
                name_lock_reason := "objeto"
                name_locked := true }
          else f) } : Task))) (pushUndo s).current_task_id).bind
      (fun t => t.fields.find? (fun f => f.id = fid))) = _
  rw [getTaskFrom_map _ _ _ (fun t => by simp)]
  cases ht : getTaskFrom (pushUndo s).project.tasks
      (pushUndo s).current_task_id with
  | none => rfl
  | some t =>
    simp only [Option.map_some, Option.some_bind]
    exact find?_map_id_preserving t.fields fid _
      (fun f => by by_cases hf : f.ftype = "Objeto" <;> simp [hf])

/-- The per-field action of `changeTypeTail`. -/
def tailField (newType : String) (f : Field) : Field :=
  let f := if newType = "Informativo" then { f with readonly := true } else f
  if newType ∉ LIST_FIELD_TYPES ∧ newType ≠ "Informativo" then
    { f with options := "" }
  else f

theorem resultField_changeTypeTail (fid newType : String) (s : AppState) :
    resultField (changeTypeTail fid newType s) fid =
      (resultField s fid).map (tailField newType) := by
  rw [changeTypeTail]
  by_cases h1 : newType = "Informativo"
  · have h2 : ¬(newType ∉ LIST_FIELD_TYPES ∧ newType ≠ "Informativo") :=
      fun hc => hc.2 h1
    rw [if_pos h1, if_neg h2,
      resultField_updCurrentField s fid
        (fun f => ({ f with readonly := true } : Field)) (fun f => rfl)]
    cases resultField s fid <;> simp [tailField, h1, h2]
  · rw [if_neg h1]
    by_cases h2 : newType ∉ LIST_FIELD_TYPES ∧ newType ≠ "Informativo"
    · rw [if_pos h2,
        resultField_updCurrentField s fid
          (fun f => ({ f with options := "" } : Field)) (fun f => rfl)]
      cases resultField s fid <;> simp [tailField, h1, h2]
    · have hmem : newType ∈ LIST_FIELD_TYPES := by
        by_contra hm
        exact h2 ⟨hm, h1⟩
      rw [if_neg h2]
      cases resultField s fid <;> simp [tailField, h1, h2, hmem]

theorem changeTypeTail_object_type (fid newType : String) (s : AppState) :
    (changeTypeTail fid newType s).project.object_type =
      s.project.object_type := by
  rw [changeTypeTail]
  by_cases h1 : newType = "Informativo"
  · have h2 : ¬(newType ∉ LIST_FIELD_TYPES ∧ newType ≠ "Informativo") :=
      fun hc => hc.2 h1
    rw [if_pos h1, if_neg h2, (project_updCurrentField _ _ _).1]
  · rw [if_neg h1]
    by_cases h2 : newType ∉ LIST_FIELD_TYPES ∧ newType ≠ "Informativo"
    · rw [if_pos h2, (project_updCurrentField _ _ _).1]
    · rw [if_neg h2]

theorem resultField_pushUndo (s : AppState) (fid : String) :
    resultField (pushUndo s) fid = resultField s fid := rfl

theorem project_pushUndo (s : AppState) : (pushUndo s).project = s.project :=
  rfl

theorem resultField_of_find (s : AppState) (t : Task) (fid : String)
    (f : Field) (ht : s.getTask = some t)
    (hf : t.fields.find? (fun x => x.id = fid) = some f) :
    resultField s fid = some f := by
  rw [resultField, ht]
  exact hf

theorem tailField_keeps (nt : String) (f : Field) :
    (tailField nt f).name = f.name ∧
    (tailField nt f).name_locked = f.name_locked ∧
    (tailField nt f).name_lock_reason = f.name_lock_reason ∧
    (tailField nt f).ftype = f.ftype ∧
    (tailField nt f).obj_type = f.obj_type ∧
    (tailField nt f).name_before_obj = f.name_before_obj := by
  simp only [tailField]
  split_ifs <;> exact ⟨rfl, rfl, rfl, rfl, rfl, rfl⟩

theorem objetoField_spec (ot : String) (f : Field) :
    (objetoField ot f).ftype = "Objeto" ∧
    (objetoField ot f).name = (if ot ≠ "" then ot else "Objeto") ∧
    (objetoField ot f).name_locked = true ∧
    (objetoField ot f).name_lock_reason = "objeto" ∧
    (objetoField ot f).obj_type = ot := by
  simp only [objetoField]
  split_ifs <;> simp

theorem unObjetoField_spec (nt : String) (f : Field)
    (hr : f.name_lock_reason = "objeto") :
    (unObjetoField nt f).name_locked = false ∧
    (unObjetoField nt f).name_lock_reason = "" ∧
    (f.name_before_obj ≠ "" → (unObjetoField nt f).name = f.name_before_obj)
    := by
  simp only [unObjetoField]
  split_ifs with h1 <;> simp_all

/-- C4, amended.  Retyping a field to `"Objeto"`: rejected with
`OriginIncompatible` when the field has an origin link, rejected with
`ObjectTypeConflict` when the task already holds another object-typed field,
rejected when no global object-type name exists and none is supplied — in
all three cases the model is unchanged (only the undo snapshot was taken).
On success the field's name is set to the (possibly just supplied) global
object-type name and locked with the object lock reason.  Retyping away from
`"Objeto"` unlocks the name and restores the prior name provided the
recorded prior name is non-empty. -/
theorem C4_change_type_object (s : AppState) (fid : String)
    (supplied : Option String) (t : Task) (f : Field)
    (ht : s.getTask = some t)
    (hf : t.fields.find? (fun x => x.id = fid) = some f) :
    (f.ftype ≠ "Objeto" →
      (pyTruthyOpt f.origin_task || pyTruthyOpt f.origin_field) = true →
      changeTypeCore fid "Objeto" supplied s =
        (pushUndo s, some .originIncompatible) ∧
      (pushUndo s).project = s.project) ∧
    (f.ftype ≠ "Objeto" →
      (pyTruthyOpt f.origin_task || pyTruthyOpt f.origin_field) = false →
      (t.fields.any (fun x => x.ftype = "Objeto" ∧ x.id ≠ f.id)) = true →
      changeTypeCore fid "Objeto" supplied s =
        (pushUndo s, some .objectTypeConflict) ∧
      (pushUndo s).project = s.project) ∧
    (f.ftype ≠ "Objeto" →
      (pyTruthyOpt f.origin_task || pyTruthyOpt f.origin_field) = false →
      (t.fields.any (fun x => x.ftype = "Objeto" ∧ x.id ≠ f.id)) = false →
      s.project.object_type = "" → supplied = none →
      changeTypeCore fid "Objeto" supplied s =
        (pushUndo s, some .objectTypeNameMissing) ∧
      (pushUndo s).project = s.project) ∧
    (f.ftype ≠ "Objeto" →
      (pyTruthyOpt f.origin_task || pyTruthyOpt f.origin_field) = false →
      (t.fields.any (fun x => x.ftype = "Objeto" ∧ x.id ≠ f.id)) = false →
      s.project.object_type ≠ "" →
      ∃ s' f', changeTypeCore fid "Objeto" supplied s = (s', none) ∧
        resultField s' fid = some f' ∧
        s'.project.object_type = s.project.object_type ∧
        f'.ftype = "Objeto" ∧ f'.name = s.project.object_type ∧
        f'.name_locked = true ∧ f'.name_lock_reason = "objeto" ∧
        f'.obj_type = s.project.object_type) ∧
    (∀ newType : String, f.ftype = "Objeto" → newType ≠ "Objeto" →
      f.name_lock_reason = "objeto" →
      ∃ s' f', changeTypeCore fid newType supplied s = (s', none) ∧
        resultField s' fid = some f' ∧
        f'.name_locked = false ∧ f'.name_lock_reason = "" ∧
        (f.name_before_obj ≠ "" → f'.name = f.name_before_obj)) := by
  have hres : resultField s fid = some f := resultField_of_find s t fid f ht hf
  refine ⟨?_, ?_, ?_, ?_, ?_⟩
  · intro hne horig
    simp only [changeTypeCore, ht, hf]
    rw [if_neg (fun h => hne h.symm)]
    simp only [if_true]
    rw [if_pos horig]
    exact ⟨by trivial, by trivial⟩
  · intro hne horig hconf
    simp only [changeTypeCore, ht, hf]
    rw [if_neg (fun h => hne h.symm)]
    simp only [if_true]
    rw [if_neg (fun h => Bool.false_ne_true (horig ▸ h)), if_pos hconf]
    exact ⟨by trivial, by trivial⟩
  · intro hne horig hconf hot hsup
    simp only [changeTypeCore, ht, hf]
    rw [if_neg (fun h => hne h.symm)]
    simp only [if_true]
    rw [if_neg (fun h => Bool.false_ne_true (horig ▸ h)), if_neg (fun h => Bool.false_ne_true (hconf ▸ h)),
      if_pos (show (pushUndo s).project.object_type = "" from hot), hsup]
    simp only [objectTypeDialog]
    exact ⟨by trivial, by trivial⟩
  · intro hne horig hconf hot
    have hid1 : ∀ g : Field,
        (objetoField (pushUndo s).project.object_type g).id = g.id := by
      intro g
      rw [objetoField]
      by_cases h : ({ g with ftype := "Objeto" } : Field).name_lock_reason ≠
          "objeto" <;> simp [h]
    simp only [changeTypeCore, ht, hf]
    rw [if_neg (fun h => hne h.symm)]
    simp only [if_true]
    rw [if_neg (fun h => Bool.false_ne_true (horig ▸ h)),
      if_neg (fun h => Bool.false_ne_true (hconf ▸ h)),
      if_neg (show ¬(pushUndo s).project.object_type = "" from hot)]
    dsimp only
    refine ⟨_, tailField "Objeto"
      (objetoField (pushUndo s).project.object_type f), rfl, ?_, ?_, ?_, ?_,
      ?_, ?_, ?_⟩
    · rw [resultField_changeTypeTail,
        resultField_updCurrentField (pushUndo s) fid _ hid1,
        resultField_pushUndo, hres]
      rfl
    · rw [changeTypeTail_object_type, (project_updCurrentField _ _ _).1]
      rfl
    · rw [(tailField_keeps _ _).2.2.2.1, (objetoField_spec _ _).1]
    · rw [(tailField_keeps _ _).1, (objetoField_spec _ _).2.1,
        if_pos (show (pushUndo s).project.object_type ≠ "" from hot)]
      rfl
    · rw [(tailField_keeps _ _).2.1, (objetoField_spec _ _).2.2.1]
    · rw [(tailField_keeps _ _).2.2.1, (objetoField_spec _ _).2.2.2.1]
    · rw [(tailField_keeps _ _).2.2.2.2.1, (objetoField_spec _ _).2.2.2.2]
      rfl
  · intro newType hprev hnew hr
    have hid2 : ∀ g : Field, (unObjetoField newType g).id = g.id := by
      intro g
      rw [unObjetoField]
      by_cases h : g.name_lock_reason = "objeto" ∧ g.name_before_obj ≠ "" <;>
        simp [h]
    simp only [changeTypeCore, ht, hf]
    rw [if_neg (fun h => hnew (hprev ▸ h)), if_neg hnew, if_pos hprev]
    refine ⟨_, tailField newType (unObjetoField newType f), rfl, ?_, ?_, ?_,
      ?_⟩
    · rw [resultField_changeTypeTail,
        resultField_updCurrentField (pushUndo s) fid _ hid2,
        resultField_pushUndo, hres]
      rfl
    · rw [(tailField_keeps _ _).2.1]
      exact (unObjetoField_spec newType f hr).1
    · rw [(tailField_keeps _ _).2.2.1]
      exact (unObjetoField_spec newType f hr).2.1
    · intro hb
      rw [(tailField_keeps _ _).1]
      exact (unObjetoField_spec newType f hr).2.2 hb

def c4Field : Field := { id := "f", name := "" }

def c4State : AppState :=
  { project :=
      { tasks := [{ id := "t", name := "T", fields := [c4Field] }]
        object_type := "X" }
    current_task_id := some "t" }

def c4After : AppState :=
  changeType "f" "Data" none (changeType "f" "Objeto" none c4State)

/-- C4, counterexample to the claim as stated: a field whose name was empty
when it was retyped to `"Objeto"` (recorded prior name `""`) keeps the forced
object-type name when retyped away — the prior name is NOT restored, because
the restore is guarded by `f.name_before_obj` being truthy.  (The unlock
itself does happen.) -/
theorem C4_change_type_object_counterexample :
    c4Field.name = "" ∧
    (resultField (changeType "f" "Objeto" none c4State) "f").map
      (fun g => g.name) = some "X" ∧
    (resultField c4After "f").map (fun g => g.name) = some "X" ∧
    (resultField c4After "f").map (fun g => g.name) ≠ some c4Field.name ∧
    (resultField c4After "f").map (fun g => g.name_locked) = some false := by
  exact ⟨rfl, rfl, rfl, by decide, rfl⟩

def c4wF1 : Field :=
  { id := "f1"
    name := "X"
    ftype := "Objeto"
    obj_type := "X"
    name_locked := true
    name_lock_reason := "objeto" }

def c4wF2 : Field := { id := "f2" }

def c4wTask : Task := { id := "t", name := "T", fields := [c4wF1, c4wF2] }

def c4wState : AppState :=
  { project := { tasks := [c4wTask], object_type := "X" }
    current_task_id := some "t" }

/-- Witness for C4 (amended): with another object-typed field in the task,
retyping `f2` to `"Objeto"` is rejected with `ObjectTypeConflict` and the
model is unchanged. -/
theorem C4_change_type_object_witness :
    changeTypeCore "f2" "Objeto" none c4wState =
      (pushUndo c4wState, some MutationError.objectTypeConflict) ∧
    (pushUndo c4wState).project = c4wState.project := by
  have h :=
    (C4_change_type_object c4wState "f2" none c4wTask c4wF2
      (by decide) (by decide)).2.1
  exact h (by decide) (by decide) (by decide)

theorem originField_spec (tid : Option String) (ofld : Field)
    (ro rq : Bool) (f : Field) :
    (originField tid ofld ro rq f).id = f.id ∧
    (originField tid ofld ro rq f).origin_task = tid ∧
    (originField tid ofld ro rq f).origin_field = some ofld.id ∧
    (originField tid ofld ro rq f).name = ofld.name ∧
    (originField tid ofld ro rq f).ftype = ofld.ftype ∧
    (originField tid ofld ro rq f).options = ofld.options ∧
    (originField tid ofld ro rq f).name_lock_reason = "origem" ∧
    (originField tid ofld ro rq f).name_locked = true := by
  simp only [originField]
  split_ifs <;> simp

/-- C5, amended.  The set-origin operation refuses object-typed target
fields, fails with `OriginNotFound` when no field of the selected task bears
the selected name (model unchanged), and on success links the target to the
origin field, copies its name, type and options, and locks the target's name
with the origin lock reason.  (The uniqueness half of the original claim —
no reachable field has both an origin and the object type — is false: see
the counterexample, where an object-typed origin field is chosen and its
type is copied onto the linked field.) -/
theorem C5_set_origin (s : AppState) (fid sel_t sel_f : String)
    (ro rq : Bool) (cur : Task) (f : Field)
    (hcur : s.getTask = some cur)
    (hf : cur.fields.find? (fun x => x.id = fid) = some f) :
    (f.ftype = "Objeto" →
      setOriginCore fid sel_t sel_f ro rq s =
        (s, some .originIncompatible)) ∧
    (∀ tt : Task, f.ftype ≠ "Objeto" →
      s.project.tasks.find? (fun t => t.name = sel_t) = some tt →
      tt.id ≠ "" → sel_f ≠ "" → sel_f ≠ "-" →
      ∀ t2 : Task, s.getTask (some tt.id) = some t2 →
      ((t2.fields.find? (fun fld => fld.name = sel_f) = none →
        setOriginCore fid sel_t sel_f ro rq s = (s, some .originNotFound)) ∧
      (∀ origin_fld : Field,
        t2.fields.find? (fun fld => fld.name = sel_f) = some origin_fld →
        ∃ s' f', setOriginCore fid sel_t sel_f ro rq s = (s', none) ∧
          resultField s' fid = some f' ∧
          f'.origin_task = some tt.id ∧
          f'.origin_field = some origin_fld.id ∧
          f'.name = origin_fld.name ∧ f'.ftype = origin_fld.ftype ∧
          f'.options = origin_fld.options ∧
          f'.name_lock_reason = "origem" ∧ f'.name_locked = true))) := by
  have hres : resultField s fid = some f :=
    resultField_of_find s cur fid f hcur hf
  constructor
  · intro hobj
    simp only [setOriginCore, hcur, hf]
    rw [if_pos hobj]
  · intro tt hne hfindt htid hsf1 hsf2 t2 ht2
    have hguard : ¬(¬(pyTruthyOpt
        ((s.project.tasks.find? (fun t => t.name = sel_t)).map
          (fun t => t.id)) = true) ∨ sel_f = "" ∨ sel_f = "-") := by
      rw [hfindt]
      intro hc
      rcases hc with hc | hc | hc
      · exact hc (by simp [pyTruthyOpt, htid])
      · exact hsf1 hc
      · exact hsf2 hc
    constructor
    · intro hnone
      simp only [setOriginCore, hcur, hf]
      rw [if_neg hne, if_neg hguard, hfindt]
      simp only [Option.map_some']
      rw [ht2]
      dsimp only
      rw [hnone]
    · intro origin_fld hofld
      have hid : ∀ g : Field,
          (originField (some tt.id) origin_fld ro rq g).id = g.id := by
        intro g
        exact (originField_spec (some tt.id) origin_fld ro rq g).1
      simp only [setOriginCore, hcur, hf]
      rw [if_neg hne, if_neg hguard, hfindt]
      simp only [Option.map_some']
      rw [ht2]
      dsimp only
      rw [hofld]
      refine ⟨_, originField (some tt.id) origin_fld ro rq f, rfl, ?_, ?_,
        ?_, ?_, ?_, ?_, ?_, ?_⟩
      · rw [resultField_updCurrentField (pushUndo s) fid _ hid,
          resultField_pushUndo, hres]
        rfl
      · exact (originField_spec _ _ _ _ _).2.1
      · exact (originField_spec _ _ _ _ _).2.2.1
      · exact (originField_spec _ _ _ _ _).2.2.2.1
      · exact (originField_spec _ _ _ _ _).2.2.2.2.1
      · exact (originField_spec _ _ _ _ _).2.2.2.2.2.1
      · exact (originField_spec _ _ _ _ _).2.2.2.2.2.2.1
      · exact (originField_spec _ _ _ _ _).2.2.2.2.2.2.2

/-- The state reached by: new task, new field, retype it to `"Objeto"`
(supplying the flow object name `X`), second new field, then set the second
field's origin to the object-typed field (selected by its displayed name
`X`). -/
def c5Chain : AppState :=
  applyOp (.setOrigin "f2" "Tarefa 1" "X" true false)
    (applyOp (.addField "f2")
      (applyOp (.changeType "f1" "Objeto" (some "X"))
        (applyOp (.addField "f1")
          (applyOp (.addTask "t1" "Tarefa 1") initialAppState))))

/-- C5, counterexample to the mutual-exclusivity claim: through the modelled
operations alone, a field with BOTH an origin link and the object type is
reachable — the origin picker does not exclude object-typed origin fields,
and setting the origin copies the origin field's type onto the target. -/
theorem C5_set_origin_counterexample :
    Reach c5Chain ∧
    ∃ t ∈ c5Chain.project.tasks, ∃ f ∈ t.fields,
      f.ftype = "Objeto" ∧ f.origin_field ≠ none ∧
      f.name_lock_reason = "origem" := by
  constructor
  · exact Reach.step _ _ (Reach.step _ _ (Reach.step _ _ (Reach.step _ _
      (Reach.step _ _ Reach.init))))
  · decide

def c5wF1 : Field :=
  { id := "f1", name := "Fonte", ftype := "Lista", options := "a;b" }

def c5wF2 : Field := { id := "f2" }

def c5wTask : Task := { id := "t", name := "T", fields := [c5wF1, c5wF2] }

def c5wState : AppState :=
  { project := { tasks := [c5wTask] }, current_task_id := some "t" }

/-- Witness for C5 (amended) on a concrete successful origin link. -/
theorem C5_set_origin_witness :
    ∃ s' f', setOriginCore "f2" "T" "Fonte" true false c5wState =
        (s', none) ∧
      resultField s' "f2" = some f' ∧ f'.origin_field = some "f1" ∧
      f'.name = "Fonte" ∧ f'.ftype = "Lista" ∧ f'.options = "a;b" ∧
      f'.name_lock_reason = "origem" ∧ f'.name_locked = true := by
  have h :=
    (C5_set_origin c5wState "f2" "T" "Fonte" true false c5wTask c5wF2
      (by decide) (by decide)).2 c5wTask (by decide) (by decide) (by decide)
      (by decide) (by decide) c5wTask (by decide)
  obtain ⟨s', f', he, hr, hot', hof, hn, hft, hopt, hlr, hlk⟩ :=
    h.2 c5wF1 (by decide)
  exact ⟨s', f', he, hr, hof, hn, hft, hopt, hlr, hlk⟩

/-! ### C10: forced Objeto re-normalization on restore -/

/-- `f.obj_type or f.name`: the candidate global object-type name an Objeto
field contributes during adoption. -/
def objCand (f : Field) : String :=
  if f.obj_type ≠ "" then f.obj_type else f.name

theorem normFieldObjeto_not_obj (ot : String) (f : Field)
    (h : f.ftype ≠ "Objeto") : normFieldObjeto ot f = (ot, f) := by
  simp only [normFieldObjeto, if_neg h]

theorem normFieldObjeto_ne (ot : String) (f : Field) (h : ot ≠ "")
    (hf : f.ftype = "Objeto") :
    normFieldObjeto ot f =
      (ot, { f with
               obj_type := ot
               name := ot
               name_lock_reason := "objeto"
               name_locked := true }) := by
  simp only [normFieldObjeto, if_pos hf, if_neg h]

theorem normFieldObjeto_empty_obj (f : Field) (hf : f.ftype = "Objeto") :
    normFieldObjeto "" f =
      (objCand f,
       { f with
           obj_type := objCand f
           name := objCand f
           name_lock_reason := "objeto"
           name_locked := true }) := by
  simp only [normFieldObjeto, if_pos hf, objCand, if_true]

theorem threadFields_ne (ot : String) (h : ot ≠ "") (fs : List Field) :
    threadFields ot fs =
      (ot, fs.map (fun f => (normFieldObjeto ot f).2)) := by
  induction fs with
  | nil => rfl
  | cons f fs ih =>
    have hfst : (normFieldObjeto ot f).1 = ot := by
      by_cases hf : f.ftype = "Objeto"
      · rw [normFieldObjeto_ne ot f h hf]
      · rw [normFieldObjeto_not_obj ot f hf]
    simp only [threadFields, hfst, ih, List.map_cons]

theorem threadFields_fst_ne (ot : String) (h : ot ≠ "") (fs : List Field) :
    (threadFields ot fs).1 = ot := by
  rw [threadFields_ne ot h fs]

theorem threadFields_fst_empty (fs : List Field) :
    (threadFields "" fs).1 =
      (((fs.filter (fun f => f.ftype = "Objeto")).map objCand).find?
        (fun c => c ≠ "")).getD "" := by
  induction fs with
  | nil => rfl
  | cons f fs ih =>
    by_cases hf : f.ftype = "Objeto"
    · simp only [threadFields, normFieldObjeto_empty_obj f hf]
      by_cases hc : objCand f = ""
      · rw [hc, ih]
        simp [List.filter_cons, hf, List.find?_cons, hc]
      · rw [threadFields_fst_ne (objCand f) hc fs]
        simp [List.filter_cons, hf, List.find?_cons, hc]
    · simp only [threadFields, normFieldObjeto_not_obj "" f hf]
      rw [ih]
      simp [List.filter_cons, hf]

theorem normTaskObjeto_ne (ot : String) (h : ot ≠ "") (t : Task) :
    normTaskObjeto ot t =
      (ot, { t with fields := t.fields.map (fun f => (normFieldObjeto ot f).2) }) := by
  simp only [normTaskObjeto, threadFields_ne ot h]

theorem threadTasks_ne (ot : String) (h : ot ≠ "") (ts : List Task) :
    threadTasks ot ts =
      (ot, ts.map (fun t =>
        { t with fields := t.fields.map (fun f => (normFieldObjeto ot f).2) })) := by
  induction ts with
  | nil => rfl
  | cons t ts ih =>
    simp only [threadTasks, normTaskObjeto_ne ot h t, ih, List.map_cons]

theorem threadTasks_fst_ne (ot : String) (h : ot ≠ "") (ts : List Task) :
    (threadTasks ot ts).1 = ot := by
  rw [threadTasks_ne ot h ts]

theorem normTaskObjeto_fst (ot : String) (t : Task) :
    (normTaskObjeto ot t).1 = (threadFields ot t.fields).1 := rfl

theorem threadTasks_fst_empty (ts : List Task) :
    (threadTasks "" ts).1 =
      ((((ts.flatMap (fun t => t.fields)).filter
          (fun f => f.ftype = "Objeto")).map objCand).find?
        (fun c => c ≠ "")).getD "" := by
  induction ts with
  | nil => rfl
  | cons t ts ih =>
    simp only [threadTasks, List.flatMap_cons, List.filter_append,
      List.map_append, List.find?_append]
    cases hfind : ((t.fields.filter (fun f => f.ftype = "Objeto")).map
        objCand).find? (fun c => c ≠ "") with
    | none =>
      have h1 : (normTaskObjeto "" t).1 = "" := by
        rw [normTaskObjeto_fst, threadFields_fst_empty, hfind]
        rfl
      rw [h1, ih]
      rfl
    | some c =>
      have hc : c ≠ "" := by
        have h2 := List.find?_some hfind
        simpa using h2
      have h1 : (normTaskObjeto "" t).1 = c := by
        rw [normTaskObjeto_fst, threadFields_fst_empty, hfind]
        rfl
      rw [h1, threadTasks_fst_ne c hc ts]
      rfl

theorem normalizeObjeto_of_ne (p : ProjectModel) (h : p.object_type ≠ "") :
    p.normalizeObjeto =
      { p with tasks := p.tasks.map (fun t =>
          { t with fields := t.fields.map (fun f => (normFieldObjeto p.object_type f).2) }) } := by
  simp only [ProjectModel.normalizeObjeto, threadTasks_ne p.object_type h]

theorem normalizeObjeto_adopt (p : ProjectModel) (h : p.object_type = "") :
    p.normalizeObjeto.object_type =
      ((((p.tasks.flatMap (fun t => t.fields)).filter
          (fun f => f.ftype = "Objeto")).map objCand).find?
        (fun c => c ≠ "")).getD "" := by
  show (threadTasks p.object_type p.tasks).1 = _
  rw [h, threadTasks_fst_empty]

/-- C10, amended.  Restoring a serialized state (the routine that serves
undo, redo and project opening) returns `normalizeObjeto` of the decoded
project, and restoring a state's own snapshot yields exactly the normalized
live project.  When a global object-type name is set, it is preserved and
every `"Objeto"` field is overwritten with it (name and `obj_type`) and
locked with the object lock reason, non-Objeto fields being untouched; when
none is set, the adopted name is that of the FIRST Objeto field whose
`obj_type or name` is non-empty (not simply the first Objeto field), and
Objeto fields encountered before the adoption keep the then-current (empty)
name rather than the final global one — see the counterexample. -/
theorem C10_restore_normalization (s : AppState) (d : Snapshot)
    (p : ProjectModel) (f : Field) :
    ((applyProjectDict s d).project =
      (ProjectModel.ofDict d.project).normalizeObjeto) ∧
    ((applyProjectDict s (serializeProject s)).project =
      s.project.normalizeObjeto) ∧
    (p.object_type ≠ "" →
      p.normalizeObjeto =
        { p with tasks := p.tasks.map (fun t =>
            { t with fields := t.fields.map (fun x => (normFieldObjeto p.object_type x).2) }) }) ∧
    (p.object_type = "" →
      p.normalizeObjeto.object_type =
        ((((p.tasks.flatMap (fun t => t.fields)).filter
            (fun x => x.ftype = "Objeto")).map objCand).find?
          (fun c => c ≠ "")).getD "") ∧
    (f.ftype ≠ "Objeto" → (normFieldObjeto p.object_type f).2 = f) ∧
    (f.ftype = "Objeto" → p.object_type ≠ "" →
      (normFieldObjeto p.object_type f).2 =
        { f with
            obj_type := p.object_type
            name := p.object_type
            name_lock_reason := "objeto"
            name_locked := true }) := by
  refine ⟨rfl, ?_, fun h => normalizeObjeto_of_ne p h,
    fun h => normalizeObjeto_adopt p h, ?_, ?_⟩
  · show (ProjectModel.ofDict (serializeProject s).project).normalizeObjeto =
      s.project.normalizeObjeto
    rw [show (serializeProject s).project = s.project.toDict from rfl,
      ProjectModel_ofDict_toDict]
  · intro h
    rw [normFieldObjeto_not_obj p.object_type f h]
  · intro hf h
    rw [normFieldObjeto_ne p.object_type f h hf]

def c10cxF1 : Field := { id := "f1", ftype := "Objeto", name := "" }

def c10cxF2 : Field := { id := "f2", ftype := "Objeto", name := "B" }

def c10cxP : ProjectModel :=
  { tasks := [{ id := "t1", name := "T1", fields := [c10cxF1] },
              { id := "t2", name := "T2", fields := [c10cxF2] }] }

def c10cxSnap : Snapshot :=
  { project := c10cxP.toDict
    current_task_id := none
    selected_field_ids := [] }

/-- C10, counterexample to the claim as stated: with no global object-type
name, adoption does NOT use the first object-typed field (here `f1`, whose
`obj_type` and `name` are both empty) — the restored global name comes from
the later field `f2`; and not every Objeto field ends up with the global
name: `f1`, visited before the adoption, keeps the empty name. -/
theorem C10_restore_normalization_counterexample :
    c10cxP.object_type = "" ∧
    (c10cxP.tasks.flatMap (fun t => t.fields)).find?
      (fun f => f.ftype = "Objeto") = some c10cxF1 ∧
    c10cxF1.obj_type = "" ∧ c10cxF1.name = "" ∧
    (applyProjectDict initialAppState c10cxSnap).project.object_type = "B" ∧
    ((applyProjectDict initialAppState
        c10cxSnap).project.tasks.flatMap (fun t => t.fields)).find?
      (fun f => f.id = "f1") = some
        { c10cxF1 with
            obj_type := ""
            name := ""
            name_lock_reason := "objeto"
            name_locked := true } ∧
    ¬ (∀ f ∈ (applyProjectDict initialAppState
          c10cxSnap).project.tasks.flatMap (fun t => t.fields),
        f.ftype = "Objeto" →
        f.name = (applyProjectDict initialAppState
          c10cxSnap).project.object_type) := by
  decide

def c10wF : Field := { id := "g", ftype := "Objeto", name := "Old", obj_type := "Old" }

def c10wP : ProjectModel :=
  { tasks := [{ id := "t", name := "T", fields := [c10wF] }]
    object_type := "X" }

/-- Witness for C10 (amended) at a concrete project with a global
object-type name. -/
theorem C10_restore_normalization_witness :
    (c10wP.normalizeObjeto =
      { c10wP with tasks := c10wP.tasks.map (fun t =>
          { t with fields := t.fields.map (fun x => (normFieldObjeto c10wP.object_type x).2) }) }) ∧
    ((normFieldObjeto c10wP.object_type c10wF).2 =
      { c10wF with
          obj_type := c10wP.object_type
          name := c10wP.object_type
          name_lock_reason := "objeto"
          name_locked := true }) ∧
    ((applyProjectDict initialAppState (serializeProject initialAppState)).project =
      initialAppState.project.normalizeObjeto) := by
  have h := C10_restore_normalization initialAppState
    (serializeProject initialAppState) c10wP c10wF
  exact ⟨h.2.2.1 (by decide), h.2.2.2.2.2 (by decide) (by decide), h.2.1⟩

/-! ### C2: undo/redo round trips -/

/-- A field already in the forced Objeto normal form for the global name
`ot`: re-normalization leaves it unchanged. -/
def fieldNormalized (ot : String) (f : Field) : Bool :=
  (f.ftype != "Objeto") ||
    (f.obj_type == ot && f.name == ot &&
      f.name_lock_reason == "objeto" && f.name_locked)

/-- A project on which the forced Objeto re-normalization is the identity. -/
def projNormalized (p : ProjectModel) : Bool :=
  p.tasks.all (fun t => t.fields.all (fieldNormalized p.object_type))

theorem normFieldObjeto_fixed (ot : String) (f : Field)
    (h : fieldNormalized ot f = true) : normFieldObjeto ot f = (ot, f) := by
  cases f with
  | mk idv namev ftypev reqv rov infov optsv notev otkv ofdv nlkv nlrv
      nbov nbrv obtv condv =>
    simp only [fieldNormalized, Bool.or_eq_true, Bool.and_eq_true,
      bne_iff_ne, beq_iff_eq, ne_eq, and_assoc] at h
    by_cases hf : ftypev = "Objeto"
    · rcases h with h | ⟨h1, h2, h3, h4⟩
      · exact absurd hf h
      · subst hf
        subst h3
        subst h4
        rw [h1, h2]
        by_cases hot : ot = ""
        · subst hot
          rfl
        · rw [normFieldObjeto_ne ot _ hot rfl]
    · exact normFieldObjeto_not_obj ot _ hf

theorem threadFields_fixed (ot : String) (fs : List Field)
    (h : fs.all (fieldNormalized ot) = true) :
    threadFields ot fs = (ot, fs) := by
  induction fs with
  | nil => rfl
  | cons f fs ih =>
    simp only [List.all_cons, Bool.and_eq_true] at h
    simp only [threadFields, normFieldObjeto_fixed ot f h.1, ih h.2]

theorem threadTasks_fixed (ot : String) (ts : List Task)
    (h : ts.all (fun t => t.fields.all (fieldNormalized ot)) = true) :
    threadTasks ot ts = (ot, ts) := by
  induction ts with
  | nil => rfl
  | cons t ts ih =>
    simp only [List.all_cons, Bool.and_eq_true] at h
    have hq : normTaskObjeto ot t = (ot, t) := by
      simp only [normTaskObjeto, threadFields_fixed ot t.fields h.1]
    simp only [threadTasks, hq, ih h.2]

/-- A project in the Objeto normal form is a fixed point of the forced
re-normalization. -/
theorem normalizeObjeto_fixed (p : ProjectModel) (h : projNormalized p = true) :
    p.normalizeObjeto = p := by
  have h' : threadTasks p.object_type p.tasks = (p.object_type, p.tasks) :=
    threadTasks_fixed p.object_type p.tasks h
  simp only [ProjectModel.normalizeObjeto, h']

theorem serializeProject_pushUndo (s : AppState) :
    serializeProject (pushUndo s) = serializeProject s := rfl

/-- After `_push_undo`, the top of the undo stack is the pre-push snapshot
and the redo stack is empty — also when the stack was capped. -/
theorem pushUndo_mark (s : AppState) :
    (pushUndo s).undo_stack.getLast? = some (serializeProject s) ∧
    (pushUndo s).redo_stack = [] := by
  refine ⟨?_, rfl⟩
  simp only [pushUndo]
  split_ifs with h
  · cases hl : s.undo_stack with
    | nil =>
      rw [hl] at h
      simp [UNDO_MAX] at h
    | cons a l =>
      simp [List.cons_append, List.tail_cons, List.getLast?_concat]
  · exact List.getLast?_concat _

/-- The state `s'` carries a fresh undo mark for the pre-state `s₀`. -/
def pushedFrom (s₀ s' : AppState) : Prop :=
  s'.undo_stack.getLast? = some (serializeProject s₀) ∧ s'.redo_stack = []

theorem pushedFrom_of_stacks {s₀ s' s'' : AppState} (h : pushedFrom s₀ s')
    (hu : s''.undo_stack = s'.undo_stack)
    (hr : s''.redo_stack = s'.redo_stack) : pushedFrom s₀ s'' :=
  ⟨hu ▸ h.1, hr ▸ h.2⟩

theorem updCurrentField_stacks (s : AppState) (fid : String)
    (u : Field → Field) :
    (updCurrentField s fid u).undo_stack = s.undo_stack ∧
    (updCurrentField s fid u).redo_stack = s.redo_stack := by
  cases hg : s.getTask with
  | none => simp [updCurrentField, hg]
  | some t => simp [updCurrentField, hg]

theorem changeTypeTail_stacks (fid nt : String) (s : AppState) :
    (changeTypeTail fid nt s).undo_stack = s.undo_stack ∧
    (changeTypeTail fid nt s).redo_stack = s.redo_stack := by
  simp only [changeTypeTail]
  split_ifs <;>
    simp [(updCurrentField_stacks _ _ _).1, (updCurrentField_stacks _ _ _).2]

theorem pushedFrom_upd (s₀ : AppState) {s' : AppState} (h : pushedFrom s₀ s')
    (fid : String) (u : Field → Field) :
    pushedFrom s₀ (updCurrentField s' fid u) :=
  pushedFrom_of_stacks h (updCurrentField_stacks s' fid u).1
    (updCurrentField_stacks s' fid u).2

theorem pushedFrom_tail (s₀ : AppState) {s' : AppState} (h : pushedFrom s₀ s')
    (fid nt : String) : pushedFrom s₀ (changeTypeTail fid nt s') :=
  pushedFrom_of_stacks h (changeTypeTail_stacks fid nt s').1
    (changeTypeTail_stacks fid nt s').2

theorem pushedFrom_clearOrigin (s : AppState) (fid : String) :
    pushedFrom s (clearOrigin fid s) :=
  pushedFrom_upd s (pushUndo_mark s) fid clearOriginField

theorem pushedFrom_applyObjectTypeName (s : AppState) (n : String) :
    pushedFrom s (applyObjectTypeName n s) :=
  pushedFrom_of_stacks (pushUndo_mark s) rfl rfl

theorem objectTypeDialog_pushed (sup : Option String) (s s2 : AppState)
    (h : objectTypeDialog sup s = some s2) : pushedFrom s s2 := by
  cases sup with
  | none => exact absurd h (by simp [objectTypeDialog])
  | some nm =>
    simp only [objectTypeDialog] at h
    by_cases hs : pyStrip nm = ""
    · rw [if_pos hs] at h
      exact absurd h (by simp)
    · rw [if_neg hs] at h
      injection h with h
      rw [← h]
      exact pushedFrom_applyObjectTypeName s (pyStrip nm)

theorem pushedFrom_pushUndo (s : AppState) : pushedFrom s (pushUndo s) :=
  ⟨(pushUndo_mark s).1, (pushUndo_mark s).2⟩

/-- Every modelled operation either leaves the state untouched (its guards
rejected it before any `_push_undo`) or leaves the pre-operation snapshot on
top of the undo stack with the redo stack cleared. -/
theorem applyOp_mark (o : Op) (s : AppState) :
    applyOp o s = s ∨ pushedFrom s (applyOp o s) := by
  cases o with
  | addField fid =>
    by_cases h : s.project.tasks = []
    · exact Or.inl (by simp [applyOp, addField, h])
    · right
      simp only [applyOp, addField, if_neg h]
      cases hg : (pushUndo s).getTask with
      | none => simp only [hg]; exact pushedFrom_pushUndo s
      | some t =>
        simp only [hg]
        exact ⟨(pushUndo_mark s).1, (pushUndo_mark s).2⟩
  | deleteField fid =>
    by_cases h : s.project.tasks = []
    · exact Or.inl (by simp [applyOp, deleteField, h])
    · right
      simp only [applyOp, deleteField, if_neg h]
      exact ⟨(pushUndo_mark s).1, (pushUndo_mark s).2⟩
  | deleteTask tid =>
    cases hg : s.project.tasks.find? (fun t => t.id = tid) with
    | none => exact Or.inl (by simp [applyOp, deleteTask, hg])
    | some t =>
      right
      simp only [applyOp, deleteTask, hg]
      exact ⟨(pushUndo_mark s).1, (pushUndo_mark s).2⟩
  | addTask tid name =>
    by_cases h : pyStrip name = ""
    · exact Or.inl (by simp [applyOp, addTask, h])
    · right
      simp only [applyOp, addTask, if_neg h]
      split_ifs with h2
      · exact ⟨(pushUndo_mark s).1, (pushUndo_mark s).2⟩
      · exact ⟨(pushUndo_mark s).1, (pushUndo_mark s).2⟩
  | renameTask tid name =>
    cases hg : s.project.tasks.find? (fun t => t.id = tid) with
    | none => exact Or.inl (by simp [applyOp, renameTask, hg])
    | some t =>
      right
      simp only [applyOp, renameTask, hg]
      exact ⟨(pushUndo_mark s).1, (pushUndo_mark s).2⟩
  | moveField fid delta =>
    cases hg : s.getTask with
    | none => exact Or.inl (by simp [applyOp, moveField, hg])
    | some task =>
      cases hi : task.fields.findIdx? (fun f => f.id = fid) with
      | none => exact Or.inl (by simp [applyOp, moveField, hg, hi])
      | some idx =>
        by_cases hr : 0 ≤ (idx : Int) + delta ∧
          (idx : Int) + delta < (task.fields.length : Int)
        · right
          simp only [applyOp, moveField, hg, hi, if_pos hr]
          exact ⟨(pushUndo_mark s).1, (pushUndo_mark s).2⟩
        · exact Or.inl (by simp [applyOp, moveField, hg, hi, if_neg hr])
  | changeType fid nt sup =>
    cases hg : s.getTask with
    | none => exact Or.inl (by simp [applyOp, changeType, changeTypeCore, hg])
    | some t =>
      cases hfind : t.fields.find? (fun f => f.id = fid) with
      | none =>
        exact Or.inl (by simp [applyOp, changeType, changeTypeCore, hg, hfind])
      | some f =>
        by_cases heq : nt = f.ftype
        · exact Or.inl
            (by simp [applyOp, changeType, changeTypeCore, hg, hfind, heq])
        · right
          simp only [applyOp, changeType, changeTypeCore, hg, hfind,
            if_neg heq]
          by_cases hobj : nt = "Objeto"
          · rw [if_pos hobj]
            by_cases ho : (pyTruthyOpt f.origin_task ||
                pyTruthyOpt f.origin_field) = true
            · rw [if_pos ho]
              exact pushedFrom_pushUndo s
            · rw [if_neg ho]
              by_cases hc : (t.fields.any
                  (fun x => x.ftype = "Objeto" ∧ x.id ≠ f.id)) = true
              · rw [if_pos hc]
                exact pushedFrom_pushUndo s
              · rw [if_neg hc]
                cases hd : (if (pushUndo s).project.object_type = "" then
                    objectTypeDialog sup (pushUndo s)
                  else some (pushUndo s)) with
                | none =>
                  simp only [hd]
                  exact pushedFrom_pushUndo s
                | some s2 =>
                  simp only [hd]
                  have hp : pushedFrom s s2 := by
                    by_cases hot : (pushUndo s).project.object_type = ""
                    · rw [if_pos hot] at hd
                      have h2 := objectTypeDialog_pushed sup (pushUndo s)
                        s2 hd
                      exact ⟨h2.1, h2.2⟩
                    · rw [if_neg hot] at hd
                      injection hd with hd
                      rw [← hd]
                      exact pushedFrom_pushUndo s
                  exact pushedFrom_tail s (pushedFrom_upd s hp fid _) fid nt
          · rw [if_neg hobj]
            by_cases hprev : f.ftype = "Objeto"
            · rw [if_pos hprev]
              exact pushedFrom_tail s
                (pushedFrom_upd s (pushedFrom_pushUndo s) fid _) fid nt
            · rw [if_neg hprev]
              exact pushedFrom_tail s
                (pushedFrom_upd s (pushedFrom_pushUndo s) fid _) fid nt
  | setOrigin fid st sf ro rq =>
    cases hg : s.getTask with
    | none => exact Or.inl (by simp [applyOp, setOrigin, setOriginCore, hg])
    | some cur =>
      cases hfind : cur.fields.find? (fun f => f.id = fid) with
      | none =>
        exact Or.inl (by simp [applyOp, setOrigin, setOriginCore, hg, hfind])
      | some f =>
        by_cases hobj : f.ftype = "Objeto"
        · exact Or.inl
            (by simp [applyOp, setOrigin, setOriginCore, hg, hfind, hobj])
        · by_cases hgd : ¬ (pyTruthyOpt
              ((s.project.tasks.find? (fun t => t.name = st)).map
                (fun t => t.id)) = true) ∨ sf = "" ∨ sf = "-"
          · right
            simp only [applyOp, setOrigin, setOriginCore, hg, hfind,
              if_neg hobj, if_pos hgd]
            exact pushedFrom_clearOrigin s fid
          · simp only [applyOp, setOrigin, setOriginCore, hg, hfind,
              if_neg hobj, if_neg hgd]
            cases ht2 : s.getTask
                ((s.project.tasks.find? (fun t => t.name = st)).map
                  (fun t => t.id)) with
            | none => exact Or.inl (by simp [ht2])
            | some t2 =>
              cases hof : t2.fields.find? (fun fld => fld.name = sf) with
              | none => exact Or.inl (by simp [ht2, hof])
              | some ofld =>
                right
                simp only [ht2, hof]
                exact pushedFrom_upd s (pushedFrom_pushUndo s) fid _
  | clearOrigin fid =>
    cases hg : s.getTask with
    | none => exact Or.inl (by simp [applyOp, pickerClear, hg])
    | some cur =>
      cases hfind : cur.fields.find? (fun f => f.id = fid) with
      | none => exact Or.inl (by simp [applyOp, pickerClear, hg, hfind])
      | some f =>
        by_cases hobj : f.ftype = "Objeto"
        · exact Or.inl (by simp [applyOp, pickerClear, hg, hfind, hobj])
        · right
          simp only [applyOp, pickerClear, hg, hfind, if_neg hobj]
          exact pushedFrom_clearOrigin s fid
  | addCond fid base val =>
    cases hg : s.getTask with
    | none => exact Or.inl (by simp [applyOp, addCond, hg])
    | some cur =>
      cases h1 : cur.fields.find? (fun f => f.id = fid) with
      | none => exact Or.inl (by simp [applyOp, addCond, hg, h1])
      | some f =>
        cases h2 : cur.fields.find? (fun fld => fld.name = base) with
        | none => exact Or.inl (by simp [applyOp, addCond, hg, h1, h2])
        | some fld =>
          by_cases h3 : pyStrip val = ""
          · exact Or.inl (by simp [applyOp, addCond, hg, h1, h2, h3])
          · by_cases h4 : (f.cond.any (fun c =>
                c.src_field = fld.id ∧ c.op = "==" ∧
                  c.value = pyStrip val)) = true
            · exact Or.inl
                (by simp only [applyOp, addCond, hg, h1, h2, if_neg h3,
                  if_pos h4])
            · right
              simp only [applyOp, addCond, hg, h1, h2, if_neg h3, if_neg h4]
              exact pushedFrom_upd s (pushedFrom_pushUndo s) fid _
  | setReadonly fid v =>
    right
    exact pushedFrom_upd s (pushedFrom_pushUndo s) fid _
  | setObjectType name =>
    by_cases h : pyStrip name = ""
    · exact Or.inl (by simp [applyOp, setObjectTypeOp, h])
    · right
      simp only [applyOp, setObjectTypeOp, if_neg h]
      exact pushedFrom_applyObjectTypeName s (pyStrip name)

theorem applyProjectDict_project_serialize (s' s : AppState) :
    (applyProjectDict s' (serializeProject s)).project =
      s.project.normalizeObjeto := by
  show (ProjectModel.ofDict (serializeProject s).project).normalizeObjeto = _
  rw [show (serializeProject s).project = s.project.toDict from rfl,
    ProjectModel_ofDict_toDict]

theorem undoAction_project (s₁ s : AppState)
    (h : s₁.undo_stack.getLast? = some (serializeProject s)) :
    (undoAction s₁).project = s.project.normalizeObjeto := by
  simp only [undoAction, h]
  exact applyProjectDict_project_serialize _ s

theorem undoAction_redo_stack (s₁ : AppState) (snap : Snapshot)
    (h : s₁.undo_stack.getLast? = some snap) (hr : s₁.redo_stack = []) :
    (undoAction s₁).redo_stack = [serializeProject s₁] := by
  simp only [undoAction, h]
  show s₁.redo_stack ++ [serializeProject s₁] = _
  rw [hr]
  rfl

theorem redoAction_project (s₂ s₁ : AppState)
    (h : s₂.redo_stack.getLast? = some (serializeProject s₁)) :
    (redoAction s₂).project = s₁.project.normalizeObjeto := by
  simp only [redoAction, h]
  exact applyProjectDict_project_serialize _ s₁

/-- C2, amended.  Every modelled mutating operation either leaves the state
untouched or leaves the pre-operation snapshot on top of the undo stack with
the redo stack cleared.  In the latter case, undo restores the project only
up to the forced Objeto re-normalization of the restore routine — it equals
`normalizeObjeto` of the pre-mutation project, which is structurally equal to
the pre-mutation project exactly when that project was already in the Objeto
normal form — and redo immediately after such an undo restores the
post-mutation project, again up to the same re-normalization. -/
theorem C2_undo_redo (s : AppState) (o : Op) :
    (applyOp o s = s ∨
      ((applyOp o s).undo_stack.getLast? = some (serializeProject s) ∧
        (applyOp o s).redo_stack = [])) ∧
    ((applyOp o s).undo_stack.getLast? = some (serializeProject s) →
      ((undoAction (applyOp o s)).project = s.project.normalizeObjeto ∧
        (projNormalized s.project = true →
          (undoAction (applyOp o s)).project = s.project) ∧
        ((applyOp o s).redo_stack = [] →
          (redoAction (undoAction (applyOp o s))).project =
            (applyOp o s).project.normalizeObjeto))) := by
  refine ⟨applyOp_mark o s, fun h => ⟨undoAction_project _ s h, ?_, ?_⟩⟩
  · intro hn
    rw [undoAction_project _ s h, normalizeObjeto_fixed _ hn]
  · intro hre
    have h2 := undoAction_redo_stack (applyOp o s) (serializeProject s) h hre
    have h3 : (undoAction (applyOp o s)).redo_stack.getLast? =
        some (serializeProject (applyOp o s)) := by
      rw [h2]
      rfl
    exact redoAction_project _ _ h3

def c2wOp : Op := .addTask "t1" "Tarefa"

/-- Witness for C2 (amended): adding a task to the fresh (normalized) state
and undoing restores the initial project exactly; redoing restores the
post-mutation project up to re-normalization. -/
theorem C2_undo_redo_witness :
    (undoAction (applyOp c2wOp initialAppState)).project =
      initialAppState.project ∧
    (redoAction (undoAction (applyOp c2wOp initialAppState))).project =
      (applyOp c2wOp initialAppState).project.normalizeObjeto := by
  have h := C2_undo_redo initialAppState c2wOp
  have hmark : (applyOp c2wOp initialAppState).undo_stack.getLast? =
      some (serializeProject initialAppState) := by decide
  have h2 := h.2 hmark
  exact ⟨h2.2.1 (by decide), h2.2.2 (by decide)⟩

/-- The same reachable state as in the origin-link counterexample: its
project holds a field with the object type but the origin lock reason, which
the restore routine's re-normalization rewrites. -/
def c2cxState : AppState :=
  applyOp (.setOrigin "f2" "Tarefa 1" "X" true false)
    (applyOp (.addField "f2")
      (applyOp (.changeType "f1" "Objeto" (some "X"))
        (applyOp (.addField "f1")
          (applyOp (.addTask "t1" "Tarefa 1") initialAppState))))

/-- C2, counterexample to the claim as stated: on this reachable state, the
add-field operation mutates the model and records the pre-mutation snapshot,
yet undo does NOT restore a structurally equal project — the restore routine
forcibly re-normalizes the object-typed field (its lock reason and
`obj_type` change), so the restored project differs from the pre-mutation
one. -/
theorem C2_undo_redo_counterexample :
    Reach c2cxState ∧
    (applyOp (.addField "f3") c2cxState).undo_stack.getLast? =
      some (serializeProject c2cxState) ∧
    (applyOp (.addField "f3") c2cxState).project ≠ c2cxState.project ∧
    (undoAction (applyOp (.addField "f3") c2cxState)).project ≠
      c2cxState.project := by
  refine ⟨Reach.step _ _ (Reach.step _ _ (Reach.step _ _ (Reach.step _ _
    (Reach.step _ _ Reach.init)))), by decide, by decide, by decide⟩

end Designer
